import Mathlib

namespace Ryadom

/-! Shallow embedding of the ryadom_bot memory and context engine
(`app/db/repository.py`, `app/core/memory.py`, `app/bot/handlers/chat.py`).
External calls (the Claude completion service, the Telegram transport) are
modelled by passing each call's result in as an explicit parameter; the
relational store is modelled as in-memory lists of rows with integer
primary keys allocated from per-table counters; wall-clock instants are
abstract `Nat` timestamps.  Rows are kept in insertion order, which for
the tables ordered by `created_at` in the source coincides with that
ordering because timestamps are monotone along a run. -/

/-- One entry of `Memory.history` (repository.py `update_memory`): the
superseded fact value plus the change timestamp. -/
structure HistoryEntry where
  old_value : String
  changed_at : Nat
  deriving Repr, DecidableEq

/-- A Memory row (models.py / repository.py `MemoryRepository`). -/
structure Memory where
  id : Nat
  user_id : Nat
  fact : String
  category : String
  importance : Nat
  emotional_weight : String
  tags : Option (List String)
  memory_key : Option String
  source_message_id : Option Nat
  history : List HistoryEntry
  is_current : Bool
  last_accessed_at : Option Nat
  created_at : Nat
  updated_at : Option Nat
  deriving Repr, DecidableEq

/-- A Message row.  `created_at` is the save timestamp. -/
structure Message where
  id : Nat
  user_id : Nat
  role : String
  content : String
  tokens_used : Option Nat
  response_time_ms : Option Nat
  is_summarized : Bool
  created_at : Nat
  deriving Repr, DecidableEq

/-- A Person row.  `important_dates` models the JSON dict as an
association list (date type, date string). -/
structure Person where
  id : Nat
  user_id : Nat
  name : String
  relation : String
  notes : Option String
  emotional_tone : String
  important_dates : Option (List (String × String))
  is_active : Bool
  created_at : Nat
  deriving Repr, DecidableEq

/-- A LifeEvent row.  `event_date` holds the parsed date as an abstract
ordinal (see `Date` below) when parsing succeeded. -/
structure LifeEvent where
  id : Nat
  user_id : Nat
  title : String
  description : Option String
  event_date : Option Nat
  is_recurring : Bool
  recurrence_type : Option String
  emotional_weight : String
  related_person_id : Option Nat
  tags : Option (List String)
  created_at : Nat
  deriving Repr, DecidableEq

/-- A MoodEntry row (append-only). -/
structure MoodEntry where
  id : Nat
  user_id : Nat
  mood_score : Nat
  energy_level : Option Nat
  anxiety_level : Option Nat
  primary_emotion : Option String
  secondary_emotions : Option (List String)
  emotional_need : Option String
  note : Option String
  source : String
  requires_attention : Bool
  created_at : Nat
  deriving Repr, DecidableEq

/-- A ConversationSummary row. -/
structure ConversationSummary where
  id : Nat
  user_id : Nat
  summary : String
  from_message_id : Nat
  to_message_id : Nat
  messages_count : Nat
  deriving Repr, DecidableEq

/-- A Subscription row (fields used by `get_plan_limit`). -/
structure Subscription where
  user_id : Nat
  plan : String
  status : String
  expires_at : Option Nat
  deriving Repr, DecidableEq

/-- A UsageLog row (`UsageLogRepository.increment`). -/
structure UsageLog where
  user_id : Nat
  date : Nat
  messages_count : Nat
  tokens_used : Nat
  cost_cents : Nat
  deriving Repr, DecidableEq

/-- A User row (columns the handled claims touch). -/
structure User where
  id : Nat
  telegram_id : Nat
  name : Option String
  onboarding_completed : Bool
  last_active_at : Option Nat
  deriving Repr, DecidableEq

/-- The relational store: one list of rows per table, kept in insertion
order, plus per-table primary-key allocators. -/
structure DB where
  users : List User
  subscriptions : List Subscription
  messages : List Message
  memories : List Memory
  persons : List Person
  events : List LifeEvent
  moods : List MoodEntry
  summaries : List ConversationSummary
  usage_logs : List UsageLog
  next_user_id : Nat
  next_message_id : Nat
  next_memory_id : Nat
  next_person_id : Nat
  next_event_id : Nat
  next_mood_id : Nat
  next_summary_id : Nat
  deriving Repr, DecidableEq

/-- The empty store of a fresh deployment. -/
def initDB : DB :=
  { users := [], subscriptions := [], messages := [], memories := []
    persons := [], events := [], moods := [], summaries := [], usage_logs := []
    next_user_id := 1, next_message_id := 1, next_memory_id := 1
    next_person_id := 1, next_event_id := 1, next_mood_id := 1
    next_summary_id := 1 }

/-- Runtime configuration (config.py): per-plan daily limits and the
parsed `ADMIN_IDS` list. -/
structure Settings where
  free_messages_per_day : Nat
  basic_messages_per_day : Nat
  premium_messages_per_day : Nat
  admin_telegram_ids : List Nat
  deriving Repr, DecidableEq

/-- Last `n` elements of a list (a table read with
`ORDER BY created_at DESC LIMIT n` followed by `reversed`, for rows kept
in insertion order). -/
def takeLast (l : List α) (n : Nat) : List α :=
  l.drop (l.length - n)

/-- Stable insertion of `a` into `l`: before the first element `b`
with `le a b` (this is the insertion step of a stable sort: among
equal keys, earlier elements stay first, like Python `sorted` and the
store's `ORDER BY`). -/
def insertSorted (le : α → α → Bool) (a : α) : List α → List α
  | [] => [a]
  | b :: t => if le a b then a :: b :: t else b :: insertSorted le a t

/-- Stable sort by the boolean preorder `le`. -/
def sortBy (le : α → α → Bool) (l : List α) : List α :=
  l.foldr (insertSorted le) []

/-! Character and string helpers.  Python's `str.lower`, `str.capitalize`
and the regex character classes are modelled on the alphabet the source
actually uses: ASCII letters plus the Russian alphabet (`а`-`я`, `ё` and
their upper-case forms). -/

/-- True when `lo ≤ c ≤ hi` in code-point order. -/
def charBetween (lo hi c : Char) : Bool :=
  decide (lo ≤ c) && decide (c ≤ hi)

/-- Python `str.lower` restricted to the ASCII and Russian alphabets. -/
def ruLower (c : Char) : Char :=
  if charBetween 'A' 'Z' c then Char.ofNat (c.toNat + 32)
  else if charBetween 'А' 'Я' c then Char.ofNat (c.toNat + 32)
  else if c = 'Ё' then 'ё'
  else c

/-- Python `str.upper` restricted to the ASCII and Russian alphabets. -/
def ruUpper (c : Char) : Char :=
  if charBetween 'a' 'z' c then Char.ofNat (c.toNat - 32)
  else if charBetween 'а' 'я' c then Char.ofNat (c.toNat - 32)
  else if c = 'ё' then 'Ё'
  else c

/-- Membership in the regex classes `[а-яёa-z]` / `[А-ЯЁA-Z]` under
`re.IGNORECASE` (their union, since `IGNORECASE` makes both classes
match either case). -/
def isRuLetter (c : Char) : Bool :=
  charBetween 'a' 'z' c || charBetween 'A' 'Z' c ||
  charBetween 'а' 'я' c || charBetween 'А' 'Я' c || c = 'ё' || c = 'Ё'

/-- Lower-case a whole string (Python `s.lower()`). -/
def strLower (s : String) : String :=
  ⟨s.data.map ruLower⟩

/-- Python `needle in hay` on strings: contiguous substring test. -/
def strContainsSub (hay needle : String) : Bool :=
  decide (needle.data <:+: hay.data)

/-- Python `str.capitalize` on a character list: first character
upper-cased, the rest lower-cased. -/
def capList : List Char → List Char
  | [] => []
  | c :: rest => ruUpper c :: rest.map ruLower

/-! `MessageRepository` (repository.py). -/

/-- Rows of the Message table belonging to one user, in insertion order. -/
def msgForUser (db : DB) (uid : Nat) : List Message :=
  db.messages.filter (fun m => m.user_id == uid)

/-- `MessageRepository.save`: insert a Message row. -/
def msgSave (db : DB) (uid : Nat) (role content : String)
    (tokens_used response_time_ms : Option Nat) (now : Nat) : DB × Message :=
  let m : Message :=
    { id := db.next_message_id, user_id := uid, role := role, content := content
      tokens_used := tokens_used, response_time_ms := response_time_ms
      is_summarized := false, created_at := now }
  ({ db with messages := db.messages ++ [m]
             next_message_id := db.next_message_id + 1 }, m)

/-- `MessageRepository.get_recent`: newest `lim` rows of the user,
returned in chronological order. -/
def msgGetRecent (db : DB) (uid lim : Nat) : List Message :=
  takeLast (msgForUser db uid) lim

/-- `MessageRepository.get_messages_count_today`: user-role messages of
the user created at or after the UTC midnight `todayStart`. -/
def msgCountToday (db : DB) (uid todayStart : Nat) : Nat :=
  (db.messages.filter (fun m =>
    m.user_id == uid && m.role == "user" &&
      decide (todayStart ≤ m.created_at))).length

/-- `MessageRepository.mark_as_summarized`: set the flag on the given ids. -/
def msgMarkSummarized (db : DB) (ids : List Nat) : DB :=
  { db with messages := db.messages.map (fun m =>
      if m.id ∈ ids then { m with is_summarized := true } else m) }

/-! `MemoryRepository` (repository.py). -/

/-- `MemoryRepository.add`: always inserts a fresh row with
`is_current = True`; there is no key-collision check here. -/
def memAdd (db : DB) (uid : Nat) (fact category : String) (importance : Nat)
    (emotional_weight : String) (tags : Option (List String))
    (memory_key : Option String) (source_message_id : Option Nat)
    (now : Nat) : DB × Memory :=
  let m : Memory :=
    { id := db.next_memory_id, user_id := uid, fact := fact
      category := category, importance := importance
      emotional_weight := emotional_weight, tags := tags
      memory_key := memory_key, source_message_id := source_message_id
      history := [], is_current := true, last_accessed_at := none
      created_at := now, updated_at := none }
  ({ db with memories := db.memories ++ [m]
             next_memory_id := db.next_memory_id + 1 }, m)

/-- Sort order of `MemoryRepository.get_all`: importance descending,
then creation time descending. -/
def memOrder (a b : Memory) : Bool :=
  decide (b.importance < a.importance) ||
  (a.importance == b.importance && decide (b.created_at ≤ a.created_at))

/-- `MemoryRepository.get_all` with `current_only=True`. -/
def memGetAll (db : DB) (uid : Nat) : List Memory :=
  sortBy memOrder (db.memories.filter (fun m => m.user_id == uid && m.is_current))

/-- Result of a `scalar_one_or_none` read: zero, one, or several rows
(the last raises `MultipleResultsFound` in SQLAlchemy). -/
inductive RowLookup (α : Type) where
  | noRow : RowLookup α
  | oneRow (row : α) : RowLookup α
  | multiErr : RowLookup α
  deriving Repr, DecidableEq

/-- `MemoryRepository.get_by_key`: current rows of the user with the
given key, through `scalar_one_or_none`. -/
def memGetByKey (db : DB) (uid : Nat) (key : String) : RowLookup Memory :=
  match db.memories.filter (fun m =>
      m.user_id == uid && m.memory_key == some key && m.is_current) with
  | [] => .noRow
  | [m] => .oneRow m
  | _ => .multiErr

/-- `MemoryRepository.update_memory`: rewrite `fact` in place on the row
with the given id, appending the superseded value to `history`. -/
def memUpdateMemory (db : DB) (memory_id : Nat) (new_fact old_fact : String)
    (now : Nat) : DB :=
  { db with memories := db.memories.map (fun m =>
      if m.id == memory_id then
        { m with fact := new_fact
                 history := m.history ++ [⟨old_fact, now⟩]
                 updated_at := some now }
      else m) }

/-- `MemoryRepository.search_by_text`: current rows whose fact contains
the search text case-insensitively, in `get_all` order. -/
def memSearchByText (db : DB) (uid : Nat) (search_text : String) :
    List Memory :=
  (memGetAll db uid).filter (fun m =>
    strContainsSub (strLower m.fact) (strLower search_text))

/-- `MemoryRepository.search_by_tags`: current rows one of whose tags
matches one of the search tags case-insensitively, in `get_all` order. -/
def memSearchByTags (db : DB) (uid : Nat) (search_tags : List String) :
    List Memory :=
  (memGetAll db uid).filter (fun m =>
    match m.tags with
    | none => false
    | some ts => (search_tags.map strLower).any (fun t =>
        (ts.map strLower).contains t))

/-- `MemoryRepository.mark_accessed`: stamp `last_accessed_at`. -/
def memMarkAccessed (db : DB) (ids : List Nat) (now : Nat) : DB :=
  { db with memories := db.memories.map (fun m =>
      if m.id ∈ ids then { m with last_accessed_at := some now } else m) }

/-! Calendar arithmetic used by `PersonRepository.get_upcoming_dates`,
modelling Python `datetime.date` on the proleptic Gregorian calendar. -/

/-- Gregorian leap year test. -/
def isLeapYear (y : Nat) : Bool :=
  y % 4 == 0 && (y % 100 != 0 || y % 400 == 0)

/-- Length of a month. -/
def daysInMonth (y m : Nat) : Nat :=
  if m = 2 then (if isLeapYear y then 29 else 28)
  else if m = 4 ∨ m = 6 ∨ m = 9 ∨ m = 11 then 30
  else 31

/-- A calendar date. -/
structure Date where
  year : Nat
  month : Nat
  day : Nat
  deriving Repr, DecidableEq

/-- Validity as a `datetime.date` (constructing an invalid one raises
`ValueError`). -/
def dateValid (d : Date) : Bool :=
  decide (1 ≤ d.year) && decide (1 ≤ d.month) && decide (d.month ≤ 12) &&
  decide (1 ≤ d.day) && decide (d.day ≤ daysInMonth d.year d.month)

/-- Days of the year strictly before month `m`. -/
def daysBeforeMonth (y m : Nat) : Nat :=
  (List.range (m - 1)).foldl (fun acc i => acc + daysInMonth y (i + 1)) 0

/-- Proleptic Gregorian ordinal (Python `date.toordinal`); differences of
ordinals model `(a - b).days`. -/
def dateOrd (d : Date) : Nat :=
  let py := d.year - 1
  365 * py + py / 4 - py / 100 + py / 400 + daysBeforeMonth d.year d.month + d.day

/-- Calendar order on dates (Python `date.__lt__`). -/
def dateLt (a b : Date) : Bool :=
  decide (a.year < b.year) ||
  (a.year == b.year && (decide (a.month < b.month) ||
    (a.month == b.month && decide (a.day < b.day))))

/-- Digit-string to number, `none` when empty or non-numeric. -/
def digitsToNat : List Char → Option Nat
  | [] => none
  | cs =>
    if cs.all Char.isDigit then
      some (cs.foldl (fun a c => a * 10 + (c.toNat - 48)) 0)
    else none

/-- `datetime.strptime(s, "%Y-%m-%d")` restricted to its date part:
three dash-separated digit groups forming a valid calendar date. -/
def parseDate (s : String) : Option Date :=
  match s.data.splitOn '-' with
  | [ys, ms, ds] => do
    let y ← digitsToNat ys
    let m ← digitsToNat ms
    let d ← digitsToNat ds
    let date : Date := ⟨y, m, d⟩
    if dateValid date then some date else none
  | _ => none

/-- `date.replace(year=y)`: `none` models the `ValueError` raised when
the combination is not a valid date (e.g. Feb 29 in a non-leap year). -/
def replaceYear (d : Date) (y : Nat) : Option Date :=
  let r : Date := { d with year := y }
  if dateValid r then some r else none

/-! `PersonRepository` (repository.py). -/

/-- `PersonRepository.get_all` with `active_only=True`: creation time
descending, i.e. reverse insertion order. -/
def personGetAll (db : DB) (uid : Nat) : List Person :=
  (db.persons.filter (fun p => p.user_id == uid && p.is_active)).reverse

/-- `PersonRepository.get_by_name`: first active person whose name
contains the query case-insensitively, in `get_all` order. -/
def personGetByName (db : DB) (uid : Nat) (name : String) : Option Person :=
  (personGetAll db uid).find? (fun p =>
    strContainsSub (strLower p.name) (strLower name))

/-- `PersonRepository.add`. -/
def personAdd (db : DB) (uid : Nat) (name relation : String)
    (notes : Option String) (emotional_tone : String)
    (important_dates : Option (List (String × String))) (now : Nat) :
    DB × Person :=
  let p : Person :=
    { id := db.next_person_id, user_id := uid, name := name
      relation := relation, notes := notes
      emotional_tone := emotional_tone, important_dates := important_dates
      is_active := true, created_at := now }
  ({ db with persons := db.persons ++ [p]
             next_person_id := db.next_person_id + 1 }, p)

/-- `PersonRepository.update`: only the arguments that are not `None`
are written. -/
def personUpdate (db : DB) (person_id : Nat) (notes : Option String)
    (emotional_tone : Option String)
    (important_dates : Option (List (String × String))) : DB :=
  { db with persons := db.persons.map (fun p =>
      if p.id == person_id then
        { p with
            notes := match notes with | some v => some v | none => p.notes
            emotional_tone := emotional_tone.getD p.emotional_tone
            important_dates := match important_dates with
              | some v => some v | none => p.important_dates }
      else p) }

/-- One output entry of `get_upcoming_dates`. -/
structure UpcomingDate where
  person_name : String
  date_type : String
  date : Date
  days_until : Int
  deriving Repr, DecidableEq

/-- Next occurrence of a stored date: this year's instance, rolled to
next year when this year's instance is strictly before today; `none`
models the skipped `ValueError` cases. -/
def nextOccurrence (today d : Date) : Option Date := do
  let thisYear ← replaceYear d today.year
  if dateLt thisYear today then replaceYear d (today.year + 1) else pure thisYear

/-- Entries one person contributes to `get_upcoming_dates`: parse each
stored date, compute its next occurrence, keep it when `days_until` is
within `[0, days]`; parse and `replace` failures skip the entry. -/
def upcomingOfPerson (today : Date) (days : Nat) (p : Person) :
    List UpcomingDate :=
  match p.important_dates with
  | none => []
  | some entries => entries.filterMap (fun e => do
      let d ← parseDate e.2
      let occ ← nextOccurrence today d
      let du : Int := (dateOrd occ : Int) - (dateOrd today : Int)
      if 0 ≤ du ∧ du ≤ (days : Int) then
        pure { person_name := p.name, date_type := e.1, date := occ
               days_until := du }
      else none)

/-- `PersonRepository.get_upcoming_dates`: collect over all active
persons and sort ascending by `days_until`. -/
def get_upcoming_dates (db : DB) (uid : Nat) (today : Date)
    (days : Nat := 14) : List UpcomingDate :=
  sortBy (fun a b => decide (a.days_until ≤ b.days_until))
    ((personGetAll db uid).flatMap (upcomingOfPerson today days))

/-! `LifeEventRepository`, `MoodRepository`,
`ConversationSummaryRepository` (repository.py). -/

/-- `LifeEventRepository.add`. -/
def eventAdd (db : DB) (uid : Nat) (title : String)
    (description : Option String) (event_date : Option Nat)
    (is_recurring : Bool) (emotional_weight : String)
    (related_person_id : Option Nat) (tags : Option (List String))
    (now : Nat) : DB × LifeEvent :=
  let e : LifeEvent :=
    { id := db.next_event_id, user_id := uid, title := title
      description := description, event_date := event_date
      is_recurring := is_recurring, recurrence_type := none
      emotional_weight := emotional_weight
      related_person_id := related_person_id, tags := tags
      created_at := now }
  ({ db with events := db.events ++ [e]
             next_event_id := db.next_event_id + 1 }, e)

/-- `MoodRepository.add`. -/
def moodAdd (db : DB) (uid mood_score : Nat)
    (energy_level anxiety_level : Option Nat)
    (primary_emotion : Option String)
    (secondary_emotions : Option (List String))
    (emotional_need : Option String) (source : String)
    (requires_attention : Bool) (now : Nat) : DB × MoodEntry :=
  let e : MoodEntry :=
    { id := db.next_mood_id, user_id := uid, mood_score := mood_score
      energy_level := energy_level, anxiety_level := anxiety_level
      primary_emotion := primary_emotion
      secondary_emotions := secondary_emotions
      emotional_need := emotional_need, note := none, source := source
      requires_attention := requires_attention, created_at := now }
  ({ db with moods := db.moods ++ [e]
             next_mood_id := db.next_mood_id + 1 }, e)

/-- Rows of the ConversationSummary table for one user, in creation
order. -/
def userSummaries (db : DB) (uid : Nat) : List ConversationSummary :=
  db.summaries.filter (fun s => s.user_id == uid)

/-- `ConversationSummaryRepository.create`. -/
def sumCreate (db : DB) (uid : Nat) (summary : String)
    (from_message_id to_message_id messages_count : Nat) :
    DB × ConversationSummary :=
  let s : ConversationSummary :=
    { id := db.next_summary_id, user_id := uid, summary := summary
      from_message_id := from_message_id, to_message_id := to_message_id
      messages_count := messages_count }
  ({ db with summaries := db.summaries ++ [s]
             next_summary_id := db.next_summary_id + 1 }, s)

/-- `ConversationSummaryRepository.get_recent`: newest `lim` rows,
newest first (no chronological re-reversal here). -/
def sumGetRecent (db : DB) (uid lim : Nat) : List ConversationSummary :=
  (takeLast (userSummaries db uid) lim).reverse

/-! `SubscriptionRepository.get_plan_limit` and
`UsageLogRepository.increment` (repository.py). -/

/-- The user's Subscription row (`scalar_one_or_none`; the source keeps
one row per user). -/
def subGetByUser (db : DB) (uid : Nat) : Option Subscription :=
  db.subscriptions.find? (fun s => s.user_id == uid)

/-- `SubscriptionRepository.get_plan_limit`: plan-derived daily message
limit, falling back to the free limit for missing, inactive or expired
subscriptions and unknown plan names. -/
def get_plan_limit (st : Settings) (db : DB) (uid now : Nat) : Nat :=
  match subGetByUser db uid with
  | none => st.free_messages_per_day
  | some sub =>
    if sub.status ≠ "active" then st.free_messages_per_day
    else if (match sub.expires_at with
             | some e => decide (e < now)
             | none => false) then st.free_messages_per_day
    else if sub.plan = "free" then st.free_messages_per_day
    else if sub.plan = "basic" then st.basic_messages_per_day
    else if sub.plan = "premium" then st.premium_messages_per_day
    else st.free_messages_per_day

/-- `UsageLogRepository.increment`: add to today's row or insert it. -/
def usageIncrement (db : DB) (uid messages tokens cost_cents today : Nat) :
    DB :=
  if (db.usage_logs.filter (fun l => l.user_id == uid && l.date == today)).isEmpty
  then
    { db with usage_logs := db.usage_logs ++
        [{ user_id := uid, date := today, messages_count := messages
           tokens_used := tokens, cost_cents := cost_cents }] }
  else
    { db with usage_logs := db.usage_logs.map (fun l =>
        if l.user_id == uid && l.date == today then
          { l with messages_count := l.messages_count + messages
                   tokens_used := l.tokens_used + tokens
                   cost_cents := l.cost_cents + cost_cents }
        else l) }

/-! `UserRepository` (repository.py). -/

/-- The User row with the given primary key. -/
def userFind (db : DB) (uid : Nat) : Option User :=
  db.users.find? (fun u => u.id == uid)

/-- `UserRepository.get_or_create`: look the Telegram id up, creating
the User row plus its default free Subscription when absent. -/
def userGetOrCreate (db : DB) (telegram_id : Nat) : DB × User × Bool :=
  match db.users.find? (fun u => u.telegram_id == telegram_id) with
  | some u => (db, u, false)
  | none =>
    let u : User :=
      { id := db.next_user_id, telegram_id := telegram_id, name := none
        onboarding_completed := false, last_active_at := none }
    let sub : Subscription :=
      { user_id := u.id, plan := "free", status := "active"
        expires_at := none }
    ({ db with users := db.users ++ [u]
               subscriptions := db.subscriptions ++ [sub]
               next_user_id := db.next_user_id + 1 }, u, true)

/-- `UserRepository.update_name`. -/
def userUpdateName (db : DB) (uid : Nat) (name : String) : DB :=
  { db with users := db.users.map (fun u =>
      if u.id == uid then { u with name := some name } else u) }

/-- `UserRepository.complete_onboarding`. -/
def userCompleteOnboarding (db : DB) (uid : Nat) : DB :=
  { db with users := db.users.map (fun u =>
      if u.id == uid then { u with onboarding_completed := true } else u) }

/-- `UserRepository.update_last_active`. -/
def userUpdateLastActive (db : DB) (uid now : Nat) : DB :=
  { db with users := db.users.map (fun u =>
      if u.id == uid then { u with last_active_at := some now } else u) }

/-! Regex machinery of `MemoryManager._extract_name_from_fact`
(memory.py).  The two patterns are
`(?:имя|зовут|называть)\s*[:\-]?\s*([А-ЯЁA-Z][а-яёa-z]+)` and the
fallback `([А-ЯЁA-Z][а-яёa-z]+)`, both compiled with `re.IGNORECASE`,
so the character classes match letters of either case.  `re.search` is
modelled as trying the pattern at every start position left to right;
because the subpatterns `\s*`, `[:\-]?` and the letter classes consume
pairwise disjoint characters, the greedy parse coincides with the
backtracking one. -/

/-- Whitespace as matched by `\s` on the inputs at hand. -/
def isSpaceChar (c : Char) : Bool :=
  c = ' ' || c = '\t' || c = '\n' || c = '\r'

/-- Case-insensitive literal prefix match; returns the remainder. -/
def litMatch : List Char → List Char → Option (List Char)
  | [], rest => some rest
  | _ :: _, [] => none
  | l :: ls, c :: rest =>
    if ruLower c = ruLower l then litMatch ls rest else none

/-- The capture group `[А-ЯЁA-Z][а-яёa-z]+` under `IGNORECASE` at the
current position: two letters followed greedily by the rest of the
letter run. -/
def groupAt : List Char → Option (List Char)
  | c1 :: c2 :: rest =>
    if isRuLetter c1 && isRuLetter c2 then
      some (c1 :: c2 :: rest.takeWhile isRuLetter)
    else none
  | _ => none

/-- The first pattern attempted at the current position: one of the
literals `имя`/`зовут`/`называть`, then `\s*`, an optional `:` or `-`,
`\s*`, then the capture group. -/
def pat1At (cs : List Char) : Option (List Char) :=
  (((litMatch "имя".data cs).orElse (fun _ => litMatch "зовут".data cs)).orElse
    (fun _ => litMatch "называть".data cs)).bind fun rest =>
    let r1 := rest.dropWhile isSpaceChar
    let r2 := match r1 with
      | c :: t => if c = ':' || c = '-' then t else r1
      | [] => r1
    groupAt (r2.dropWhile isSpaceChar)

/-- `re.search` of the first pattern: leftmost start position wins. -/
def searchPat1 : List Char → Option (List Char)
  | [] => none
  | c :: rest => (pat1At (c :: rest)).orElse (fun _ => searchPat1 rest)

/-- `re.search` of the fallback pattern. -/
def searchPat2 : List Char → Option (List Char)
  | [] => none
  | c :: rest => (groupAt (c :: rest)).orElse (fun _ => searchPat2 rest)

/-- Generic words the name extractor refuses. -/
def genericNameWords : List String :=
  ["друг", "человек", "пользователь", "имя"]

/-- Python `str.strip()` on a character list. -/
def stripWsL (cs : List Char) : List Char :=
  ((cs.dropWhile isSpaceChar).reverse.dropWhile isSpaceChar).reverse

/-- Python `str.strip()`. -/
def strStrip (s : String) : String :=
  ⟨stripWsL s.data⟩

/-- Post-processing of one regex match: `group(1).strip()`, the generic
word check on its lower-casing, then `str.capitalize`. -/
def tryName (tok : List Char) : Option String :=
  if genericNameWords.contains ⟨(stripWsL tok).map ruLower⟩ then none
  else some ⟨capList (stripWsL tok)⟩

/-- `MemoryManager._extract_name_from_fact`: try both patterns in
order; a match whose lower-casing is a generic word falls through to
the next pattern. -/
def extractNameFromFact (fact : String) : Option String :=
  match searchPat1 fact.data with
  | some tok =>
    (match tryName tok with
     | some n => some n
     | none => (searchPat2 fact.data).bind tryName)
  | none => (searchPat2 fact.data).bind tryName

/-! Keyword extraction (`MemoryManager._extract_keywords`) and the
onboarding name pick (`extract_name` in chat.py). -/

/-- One right fold collecting maximal runs: the first component is the
run currently growing at the front, the second the completed runs. -/
def runsByCore (p : Char → Bool) (l : List Char) :
    List Char × List (List Char) :=
  l.foldr (fun c acc =>
    if p c then (c :: acc.1, acc.2)
    else ([], if acc.1.isEmpty then acc.2 else acc.1 :: acc.2)) ([], [])

/-- Maximal runs of characters satisfying `p` (Python
`re.findall(r'[...]+', s)`). -/
def runsBy (p : Char → Bool) (l : List Char) : List (List Char) :=
  if (runsByCore p l).1.isEmpty then (runsByCore p l).2
  else (runsByCore p l).1 :: (runsByCore p l).2

/-- The class `[а-яёa-z]` (no `IGNORECASE` here: the text was lowered
first). -/
def isKwLetter (c : Char) : Bool :=
  charBetween 'a' 'z' c || charBetween 'а' 'я' c || c = 'ё'

/-- Stop words of `_extract_keywords`. -/
def stopWords : List String :=
  ["я", "ты", "он", "она", "мы", "вы", "они", "это", "что", "как",
   "так", "но", "и", "или", "не", "да", "нет", "мне", "меня", "тебе",
   "его", "её", "их", "нас", "вас", "быть", "был", "была", "было",
   "будет", "есть", "для", "на", "по", "от", "до", "при", "после",
   "уже", "ещё", "тоже", "очень", "просто", "вот", "там", "тут",
   "сегодня", "вчера", "завтра", "когда", "если", "чтобы", "потому"]

/-- `MemoryManager._extract_keywords`: tokenize the lowered text, drop
tokens of length at most two and stop words, cap at ten. -/
def extractKeywords (text : String) : List String :=
  let words := (runsBy isKwLetter (text.data.map ruLower)).map
    (fun cs => (⟨cs⟩ : String))
  (words.filter (fun w => decide (w.length > 2) && !stopWords.contains w)).take 10

/-- Characters stripped by `word.strip('.,!?-')` in chat.py. -/
def isPunct (c : Char) : Bool :=
  c = '.' || c = ',' || c = '!' || c = '?' || c = '-'

/-- `word.strip('.,!?-')`. -/
def stripPunct (cs : List Char) : List Char :=
  ((cs.dropWhile isPunct).reverse.dropWhile isPunct).reverse

/-- Skip words of chat.py `extract_name`. -/
def chatSkipWords : List String :=
  ["привет", "здравствуй", "здравствуйте", "хай", "хей", "hello", "hi",
   "добрый", "доброе", "добрая", "утро", "день", "вечер", "ночь",
   "я", "меня", "зовут", "это", "мое", "моё", "имя", "можешь", "называть",
   "звать", "ну", "так", "вот", "ага", "да", "нет", "ок", "окей", "ладно",
   "мне", "тебя", "как", "что", "кто"]

/-- Word loop of chat.py `extract_name`; `total` is the length of the
full word list (the `len(words) > 5` test inside the loop). -/
def extractNameChatGo (total : Nat) : List (List Char) → Option String
  | [] => none
  | w :: rest =>
    let clean := stripPunct (w.map ruLower)
    if chatSkipWords.contains ⟨clean⟩ || decide (clean.length ≤ 1) then
      extractNameChatGo total rest
    else if decide (total > 5) then extractNameChatGo total rest
    else some ⟨capList (stripPunct w)⟩

/-- chat.py `extract_name`: onboarding name pick from the first
message. -/
def extractNameChat (text : String) : Option String :=
  let words := runsBy (fun c => !isSpaceChar c) text.data
  extractNameChatGo words.length words

/-! The `MemoryManager` layer (memory.py).  The two completion-service
calls of a turn are I/O against the external adapter: `detect_mood`
returns `None` on API failure or unparseable JSON (claude.py), and the
extraction call (`extract_full_memory`, whose adapter method is not
part of the sources) returns `None` likewise, so both results enter
the model as `Option` parameters. -/

/-- Parsed mood-inference output; `Option` fields model keys read with
`dict.get`, which yields `None` when absent. -/
structure MoodData where
  mood_score : Option Nat
  energy_level : Option Nat
  anxiety_level : Option Nat
  primary_emotion : Option String
  secondary_emotions : Option (List String)
  emotional_need : Option String
  requires_attention : Option Bool
  crisis_indicators : Option (List String)
  deriving Repr, DecidableEq

/-- One item of the extraction's `facts` list. -/
structure FactData where
  fact : String
  category : Option String
  importance : Option Nat
  emotional_weight : Option String
  tags : Option (List String)
  memory_key : Option String
  deriving Repr, DecidableEq

/-- One item of the extraction's `persons` list. -/
structure PersonData where
  name : String
  relation : Option String
  notes : Option String
  emotional_tone : Option String
  deriving Repr, DecidableEq

/-- One item of the extraction's `events` list. -/
structure EventData where
  title : String
  description : Option String
  event_date : Option String
  is_recurring : Option Bool
  emotional_weight : Option String
  related_person : Option String
  tags : Option (List String)
  deriving Repr, DecidableEq

/-- One item of the extraction's `updates` list. -/
structure UpdateData where
  memory_key : Option String
  old_fact_contains : Option String
  new_fact : String
  deriving Repr, DecidableEq

/-- Modelled from the spec: output shape of the extraction call
(`extractMemory(...) -> {facts[],persons[],events[],updates[]}|null`);
the adapter method `extract_full_memory` called at memory.py:158 is not
among the sources, only its caller is. -/
structure Extraction where
  facts : List FactData
  persons : List PersonData
  events : List EventData
  updates : List UpdateData
  deriving Repr, DecidableEq

/-- Fact branch of `_extract_all_memories`: the reserved key
`user_name` first writes an extracted name to the User row; then the
fact is always inserted as a fresh current Memory row. -/
def processFact (db : DB) (uid : Nat) (fd : FactData) (now : Nat) : DB :=
  let db1 :=
    if fd.memory_key == some "user_name" then
      match extractNameFromFact fd.fact with
      | some name => userUpdateName db uid name
      | none => db
    else db
  (memAdd db1 uid fd.fact (fd.category.getD "general") (fd.importance.getD 5)
    (fd.emotional_weight.getD "neutral") fd.tags fd.memory_key none now).1

/-- Person branch of `_extract_all_memories`: merge into the first
substring match or insert a new active person. -/
def processPerson (db : DB) (uid : Nat) (pd : PersonData) (now : Nat) : DB :=
  match personGetByName db uid pd.name with
  | some existing =>
    personUpdate db existing.id pd.notes (some (pd.emotional_tone.getD "neutral"))
      none
  | none =>
    (personAdd db uid pd.name (pd.relation.getD "знакомый") pd.notes
      (pd.emotional_tone.getD "neutral") none now).1

/-- Event branch of `_extract_all_memories`: unparsable dates and
unresolved person references become `None` rather than blocking the
insert; an empty `related_person` string is falsy and skips the lookup. -/
def processEvent (db : DB) (uid : Nat) (ed : EventData) (now : Nat) : DB :=
  let event_date := match ed.event_date with
    | some s => if s = "" then none else (parseDate s).map dateOrd
    | none => none
  let related := match ed.related_person with
    | some nm =>
      if nm = "" then none else (personGetByName db uid nm).map (fun p => p.id)
    | none => none
  (eventAdd db uid ed.title ed.description event_date (ed.is_recurring.getD false)
    (ed.emotional_weight.getD "neutral") related ed.tags now).1

/-- Update branch of `_extract_all_memories`: locate the target first
by key, else by substring search taking the first match; no target (or
a `MultipleResultsFound` from the key read, caught per item) silently
drops the update.  The returned flag is whether the update counted. -/
def processUpdate (db : DB) (uid : Nat) (ud : UpdateData) (now : Nat) :
    DB × Bool :=
  let keyLookup : RowLookup Memory := match ud.memory_key with
    | some k => if k = "" then .noRow else memGetByKey db uid k
    | none => .noRow
  match keyLookup with
  | .multiErr => (db, false)
  | .oneRow m => (memUpdateMemory db m.id ud.new_fact m.fact now, true)
  | .noRow =>
    let found : Option Memory := match ud.old_fact_contains with
      | some txt =>
        if txt = "" then none else (memSearchByText db uid txt).head?
      | none => none
    match found with
    | some m => (memUpdateMemory db m.id ud.new_fact m.fact now, true)
    | none => (db, false)

/-- Counters returned by `_extract_all_memories`. -/
structure ExtractCounts where
  facts : Nat
  persons : Nat
  events : Nat
  updates : Nat
  deriving Repr, DecidableEq

/-- `MemoryManager._extract_all_memories`: apply the four sub-lists in
order; a `None` extraction result is a no-op. -/
def extractAllMemories (db : DB) (uid : Nat) (extraction : Option Extraction)
    (now : Nat) : DB × ExtractCounts :=
  match extraction with
  | none => (db, ⟨0, 0, 0, 0⟩)
  | some ex =>
    let db1 := ex.facts.foldl (fun d fd => processFact d uid fd now) db
    let db2 := ex.persons.foldl (fun d pd => processPerson d uid pd now) db1
    let db3 := ex.events.foldl (fun d ed => processEvent d uid ed now) db2
    let upd := ex.updates.foldl (fun (acc : DB × Nat) ud =>
      let r := processUpdate acc.1 uid ud now
      (r.1, acc.2 + (if r.2 then 1 else 0))) (db3, 0)
    (upd.1, ⟨ex.facts.length, ex.persons.length, ex.events.length, upd.2⟩)

/-- Result dict of `MemoryManager.process_message`. -/
structure ProcessResult where
  mood_detected : Bool
  memories_extracted : Nat
  persons_found : Nat
  events_found : Nat
  updates_applied : Nat
  requires_attention : Bool
  attention_reason : List String
  emotional_need : Option String
  primary_emotion : Option String
  deriving Repr, DecidableEq

/-- Initial value of the result dict. -/
def emptyResult : ProcessResult :=
  { mood_detected := false, memories_extracted := 0, persons_found := 0
    events_found := 0, updates_applied := 0, requires_attention := false
    attention_reason := [], emotional_need := none, primary_emotion := none }

/-- `MemoryManager.process_message`: persist the mood entry when the
inference returned one, flag `requires_attention` from it, then run
extraction on every user message regardless. -/
def process_message (db : DB) (uid : Nat) (_message : String) (role : String)
    (mood : Option MoodData) (extraction : Option Extraction) (now : Nat) :
    DB × ProcessResult :=
  if role ≠ "user" then (db, emptyResult)
  else
    let step1 : DB × ProcessResult := match mood with
      | none => (db, emptyResult)
      | some md =>
        let db' := (moodAdd db uid (md.mood_score.getD 5) md.energy_level
          md.anxiety_level md.primary_emotion md.secondary_emotions
          md.emotional_need "auto" (md.requires_attention.getD false) now).1
        (db', { emptyResult with
                mood_detected := true
                primary_emotion := md.primary_emotion
                emotional_need := md.emotional_need
                requires_attention := md.requires_attention.getD false
                attention_reason :=
                  if md.requires_attention.getD false then
                    md.crisis_indicators.getD []
                  else [] })
    let step2 := extractAllMemories step1.1 uid extraction now
    (step2.1, { step1.2 with
                memories_extracted := step2.2.facts
                persons_found := step2.2.persons
                events_found := step2.2.events
                updates_applied := step2.2.updates })

/-- `MemoryManager.SUMMARY_THRESHOLD`. -/
def SUMMARY_THRESHOLD : Nat := 50

/-- `MemoryManager.should_summarize`: with no prior summary, trigger at
`threshold` stored messages; else count the recent messages beyond the
last summary's upper bound. -/
def should_summarize (db : DB) (uid : Nat) : Bool :=
  match sumGetRecent db uid 1 with
  | [] =>
    decide (SUMMARY_THRESHOLD ≤ (msgGetRecent db uid (SUMMARY_THRESHOLD + 1)).length)
  | last :: _ =>
    decide (SUMMARY_THRESHOLD ≤ ((msgGetRecent db uid 100).filter
      (fun m => decide (last.to_message_id < m.id))).length)

/-- `MemoryManager.create_summary`: take the newest `threshold` stored
messages; skip (changing nothing) when fewer than ten are available or
the external summarization returned `None` or an empty text; otherwise
persist the summary over exactly that window and flag its messages. -/
def create_summary (db : DB) (uid : Nat) (summaryText : Option String) :
    DB × Option String :=
  let msgs := msgGetRecent db uid SUMMARY_THRESHOLD
  if msgs.length < 10 then (db, none)
  else
    match summaryText with
    | none => (db, none)
    | some t =>
      if t = "" then (db, none)
      else
        match msgs with
        | [] => (db, none)
        | m0 :: rest =>
          let lastId := (List.getLast (m0 :: rest) (List.cons_ne_nil m0 rest)).id
          let db1 := (sumCreate db uid t m0.id lastId (m0 :: rest).length).1
          let db2 := msgMarkSummarized db1 ((m0 :: rest).map (fun m => m.id))
          (db2, some t)

/-- Side effect of `MemoryManager.get_relevant_context`: the relevance
matches (by tag and by text) get their access timestamps stamped; every
other part of context assembly is a pure read. -/
def contextMarkAccessed (db : DB) (uid : Nat) (current_message : String)
    (now : Nat) : DB :=
  let keywords := extractKeywords current_message
  if keywords.isEmpty then db
  else
    let byTags := memSearchByTags db uid keywords
    let byText := memSearchByText db uid current_message
    let ids := (byTags ++ byText).map (fun m => m.id)
    if ids.isEmpty then db else memMarkAccessed db ids now

/-! The message handler (`handle_message` in chat.py).  Transport and
completion-service I/O is carried by `TurnInput`: the mood and
extraction results, the generated reply (`none` models the exception
path, which falls back to a canned reply), and the summarization
result. -/

/-- A successful `ClaudeClient.get_response` result. -/
structure GenResponse where
  content : String
  tokens_input : Nat
  tokens_output : Nat
  response_time_ms : Nat
  deriving Repr, DecidableEq

/-- Everything one incoming message brings with it, including the
results of the turn's external calls. -/
structure TurnInput where
  telegram_id : Nat
  text : String
  now : Nat
  todayStart : Nat
  mood : Option MoodData
  extraction : Option Extraction
  genResponse : Option GenResponse
  fallbackText : String
  summaryText : Option String
  deriving Repr, DecidableEq

/-- Observable outcome of one turn: the store, the texts answered to
the user, how many crisis escalations went to the admin collaborator
(`notify_admins_crisis` calls), and whether the quota gate blocked the
turn. -/
structure TurnOutput where
  db : DB
  replies : List String
  crisisNotices : Nat
  blocked : Bool
  deriving Repr, DecidableEq

/-- Modelled from the spec: the fixed crisis-support response text
(`get_crisis_response` lives in `app/core/prompts.py`, which is not
among the sources; the spec fixes only that a fixed crisis response
replaces the generated reply). -/
def crisis_response_text : String := "CRISIS_SUPPORT_RESPONSE"

/-- Reply sent by the quota gate (its exact wording carries the limit;
only its identity matters here). -/
def limit_reached_text : String := "LIMIT_REACHED"

/-- chat.py `handle_message`: user lookup/creation, quota gate, message
save, onboarding, mood and memory processing, crisis short-circuit,
context assembly, reply save plus usage bookkeeping, summarization
check. -/
def handle_message (st : Settings) (db : DB) (inp : TurnInput) : TurnOutput :=
  let r0 := userGetOrCreate db inp.telegram_id
  let db := r0.1
  let user := r0.2.1
  let user_text := strStrip inp.text
  let is_admin := st.admin_telegram_ids.contains inp.telegram_id
  if !is_admin &&
     decide (get_plan_limit st db user.id inp.now ≤
       msgCountToday db user.id inp.todayStart) then
    { db := db, replies := [limit_reached_text], crisisNotices := 0
      blocked := true }
  else
    let db := (msgSave db user.id "user" user_text none none inp.now).1
    let onb : DB × User :=
      if user.name = none then
        let name := (extractNameChat user_text).getD "Друг"
        let db := userCompleteOnboarding (userUpdateName db user.id name) user.id
        (db, { user with name := some name })
      else (db, user)
    let db := onb.1
    let pm := process_message db user.id user_text "user" inp.mood
      inp.extraction inp.now
    let db := pm.1
    if pm.2.requires_attention then
      let db := (msgSave db user.id "assistant" crisis_response_text none none
        inp.now).1
      { db := db, replies := [crisis_response_text], crisisNotices := 1
        blocked := false }
    else
      let db := contextMarkAccessed db user.id user_text inp.now
      let answered : DB × String :=
        match inp.genResponse with
        | some g =>
          let db := (msgSave db user.id "assistant" g.content
            (some (g.tokens_input + g.tokens_output))
            (some g.response_time_ms) inp.now).1
          let db := usageIncrement db user.id 1
            (g.tokens_input + g.tokens_output) 0 inp.todayStart
          (userUpdateLastActive db user.id inp.now, g.content)
        | none =>
          ((msgSave db user.id "assistant" inp.fallbackText none none
            inp.now).1, inp.fallbackText)
      let db := answered.1
      let db :=
        if should_summarize db user.id then
          (create_summary db user.id inp.summaryText).1
        else db
      { db := db, replies := [answered.2], crisisNotices := 0
        blocked := false }

/-- Rows of the Memory table that realize the §3 uniqueness invariant:
current rows of `uid` carrying the key `k` (the filter of
`MemoryRepository.get_by_key`). -/
def currentKeyRows (db : DB) (uid : Nat) (k : String) : List Memory :=
  db.memories.filter (fun m =>
    m.user_id == uid && m.memory_key == some k && m.is_current)

/-- Number of facts an extraction result carries. -/
def extFactsCount : Option Extraction → Nat
  | none => 0
  | some ex => ex.facts.length

/-! Generic list lemmas. -/

theorem foldl_proj_eq {α β γ : Type} {f : β → α → β} {g : β → γ}
    (h : ∀ d a, g (f d a) = g d) :
    ∀ (l : List α) (d : β), g (l.foldl f d) = g d := by
  intro l
  induction l with
  | nil => intro d; rfl
  | cons a t ih => intro d; rw [List.foldl_cons, ih, h]

theorem takeLast_sublist (l : List α) (n : Nat) : (takeLast l n).Sublist l :=
  List.drop_sublist _ _

theorem mem_takeLast {l : List α} {n : Nat} {x : α} (h : x ∈ takeLast l n) :
    x ∈ l :=
  (takeLast_sublist l n).mem h

theorem mem_insertSorted {le : α → α → Bool} {a x : α} :
    ∀ {l : List α}, x ∈ insertSorted le a l ↔ x = a ∨ x ∈ l := by
  intro l
  induction l with
  | nil => simp [insertSorted]
  | cons b t ih =>
    by_cases h : le a b = true
    · simp [insertSorted, h, List.mem_cons]
    · simp only [insertSorted, if_neg h, List.mem_cons, ih]
      tauto

theorem mem_sortBy {le : α → α → Bool} {x : α} :
    ∀ {l : List α}, x ∈ sortBy le l ↔ x ∈ l := by
  intro l
  induction l with
  | nil => simp [sortBy]
  | cons b t ih =>
    simp only [sortBy, List.foldr_cons] at ih ⊢
    rw [mem_insertSorted, ih, List.mem_cons]

theorem pairwise_insertSorted {le : α → α → Bool}
    (htot : ∀ a b, le a b = true ∨ le b a = true)
    (htrans : ∀ a b c, le a b = true → le b c = true → le a c = true)
    (a : α) :
    ∀ {l : List α}, l.Pairwise (fun x y => le x y = true) →
      (insertSorted le a l).Pairwise (fun x y => le x y = true) := by
  intro l
  induction l with
  | nil => intro _; simp [insertSorted]
  | cons b t ih =>
    intro h
    rcases List.pairwise_cons.mp h with ⟨hb, ht⟩
    by_cases hab : le a b = true
    · rw [insertSorted, if_pos hab]
      refine List.pairwise_cons.mpr ⟨?_, h⟩
      intro y hy
      rcases List.mem_cons.mp hy with rfl | hyt
      · exact hab
      · exact htrans a b y hab (hb y hyt)
    · rw [insertSorted, if_neg hab]
      refine List.pairwise_cons.mpr ⟨?_, ih ht⟩
      intro y hy
      rcases mem_insertSorted.mp hy with rfl | hyt
      · rcases htot y b with h1 | h1
        · exact absurd h1 hab
        · exact h1
      · exact hb y hyt

theorem pairwise_sortBy {le : α → α → Bool}
    (htot : ∀ a b, le a b = true ∨ le b a = true)
    (htrans : ∀ a b c, le a b = true → le b c = true → le a c = true) :
    ∀ (l : List α),
      (sortBy le l).Pairwise (fun x y => le x y = true) := by
  intro l
  induction l with
  | nil => simp [sortBy]
  | cons b t ih =>
    simp only [sortBy, List.foldr_cons] at ih ⊢
    exact pairwise_insertSorted htot htrans b ih

/-! Frame lemmas: the extraction pipeline touches only the Memory,
Person, LifeEvent and User tables. -/

/-- The store components `_extract_all_memories` never writes. -/
def extFrame (d : DB) :
    List Message × Nat × List MoodEntry × Nat × List ConversationSummary ×
      Nat × List UsageLog × List Subscription :=
  (d.messages, d.next_message_id, d.moods, d.next_mood_id,
   d.summaries, d.next_summary_id, d.usage_logs, d.subscriptions)

theorem processFact_extFrame (d : DB) (uid : Nat) (fd : FactData)
    (now : Nat) : extFrame (processFact d uid fd now) = extFrame d := by
  cases h : fd.memory_key == some "user_name" <;>
    cases h2 : extractNameFromFact fd.fact <;>
      simp [processFact, h, h2, memAdd, userUpdateName, extFrame]

theorem processPerson_extFrame (d : DB) (uid : Nat) (pd : PersonData)
    (now : Nat) : extFrame (processPerson d uid pd now) = extFrame d := by
  cases h : personGetByName d uid pd.name <;>
    simp [processPerson, h, personUpdate, personAdd, extFrame]

theorem processEvent_extFrame (d : DB) (uid : Nat) (ed : EventData)
    (now : Nat) : extFrame (processEvent d uid ed now) = extFrame d := by
  simp [processEvent, eventAdd, extFrame]

theorem processUpdate_extFrame (d : DB) (uid : Nat) (ud : UpdateData)
    (now : Nat) : extFrame (processUpdate d uid ud now).1 = extFrame d := by
  simp only [processUpdate]
  split
  · rfl
  · simp [memUpdateMemory, extFrame]
  · split
    · simp [memUpdateMemory, extFrame]
    · rfl

theorem extractAllMemories_extFrame (db : DB) (uid : Nat)
    (ex : Option Extraction) (now : Nat) :
    extFrame (extractAllMemories db uid ex now).1 = extFrame db := by
  cases ex with
  | none => rfl
  | some e =>
    have hf : ∀ (l : List FactData) (d : DB),
        extFrame (l.foldl (fun d fd => processFact d uid fd now) d) =
          extFrame d :=
      foldl_proj_eq (fun d a => processFact_extFrame d uid a now)
    have hp : ∀ (l : List PersonData) (d : DB),
        extFrame (l.foldl (fun d pd => processPerson d uid pd now) d) =
          extFrame d :=
      foldl_proj_eq (fun d a => processPerson_extFrame d uid a now)
    have he : ∀ (l : List EventData) (d : DB),
        extFrame (l.foldl (fun d ed => processEvent d uid ed now) d) =
          extFrame d :=
      foldl_proj_eq (fun d a => processEvent_extFrame d uid a now)
    have hu : ∀ (l : List UpdateData) (p : DB × Nat),
        extFrame ((l.foldl (fun (acc : DB × Nat) ud =>
              let r := processUpdate acc.1 uid ud now
              (r.1, acc.2 + (if r.2 then 1 else 0))) p).1) =
          extFrame p.1 :=
      foldl_proj_eq (g := fun q : DB × Nat => extFrame q.1)
        (f := fun (acc : DB × Nat) ud =>
          let r := processUpdate acc.1 uid ud now
          (r.1, acc.2 + (if r.2 then 1 else 0)))
        (fun d a => processUpdate_extFrame d.1 uid a now)
    simp only [extractAllMemories]
    exact (hu e.updates _).trans
      ((he e.events _).trans ((hp e.persons _).trans (hf e.facts db)))

theorem extractAllMemories_moods (db : DB) (uid : Nat)
    (ex : Option Extraction) (now : Nat) :
    (extractAllMemories db uid ex now).1.moods = db.moods :=
  congrArg (fun t => t.2.2.1) (extractAllMemories_extFrame db uid ex now)

theorem extractAllMemories_messages (db : DB) (uid : Nat)
    (ex : Option Extraction) (now : Nat) :
    (extractAllMemories db uid ex now).1.messages = db.messages :=
  congrArg (fun t => t.1) (extractAllMemories_extFrame db uid ex now)

theorem extractAllMemories_summaries (db : DB) (uid : Nat)
    (ex : Option Extraction) (now : Nat) :
    (extractAllMemories db uid ex now).1.summaries = db.summaries :=
  congrArg (fun t => t.2.2.2.2.1) (extractAllMemories_extFrame db uid ex now)

/-- C6: when the mood inference fails or returns unparseable output
(claude.py `detect_mood` returns `None`), `process_message` persists no
MoodEntry, reports `requires_attention = false`, and the turn proceeds
to the normal memory extraction (the resulting store is exactly the
extraction's). -/
theorem claim6_mood_failure_noop (db : DB) (uid : Nat) (msg : String)
    (extraction : Option Extraction) (now : Nat) :
    (process_message db uid msg "user" none extraction now).1.moods =
        db.moods ∧
    (process_message db uid msg "user" none extraction now).2.requires_attention
        = false ∧
    (process_message db uid msg "user" none extraction now).1 =
      (extractAllMemories db uid extraction now).1 := by
  refine ⟨?_, rfl, rfl⟩
  show (extractAllMemories db uid extraction now).1.moods = db.moods
  exact extractAllMemories_moods db uid extraction now

/-! Claim C5: explicit updates rewrite the row in place. -/

theorem memGetByKey_oneRow {db : DB} {uid : Nat} {k : String} {m : Memory}
    (h : memGetByKey db uid k = .oneRow m) :
    m ∈ db.memories ∧ m.user_id = uid ∧ m.memory_key = some k ∧
      m.is_current = true := by
  unfold memGetByKey at h
  split at h
  · cases h
  · rename_i x heq
    cases h
    have hx : m ∈ db.memories.filter (fun mm =>
        mm.user_id == uid && mm.memory_key == some k && mm.is_current) := by
      rw [heq]; exact List.mem_singleton.mpr rfl
    obtain ⟨hmem, hpred⟩ := List.mem_filter.mp hx
    simp only [Bool.and_eq_true, beq_iff_eq] at hpred
    exact ⟨hmem, hpred.1.1, hpred.1.2, hpred.2⟩
  · cases h

/-- C5: applying an explicit correction through the updates branch of
`_extract_all_memories` keeps every row id in place (same list of ids,
no insertion), replaces the target's `fact`, appends exactly one
history entry carrying the prior fact value, leaves all other rows
untouched, and counts as one applied update. -/
theorem claim5_update_in_place (db : DB) (uid : Nat) (ud : UpdateData)
    (now : Nat) (m : Memory) (k : String)
    (hk : ud.memory_key = some k) (hke : k ≠ "")
    (hfound : memGetByKey db uid k = .oneRow m) :
    (processUpdate db uid ud now).1.memories.map (fun r => r.id) =
        db.memories.map (fun r => r.id) ∧
    (processUpdate db uid ud now).1.memories.length = db.memories.length ∧
    ({ m with
        fact := ud.new_fact
        history := m.history ++ [{ old_value := m.fact, changed_at := now }]
        updated_at := some now } : Memory) ∈
        (processUpdate db uid ud now).1.memories ∧
    (∀ r ∈ db.memories, r.id ≠ m.id →
       r ∈ (processUpdate db uid ud now).1.memories) ∧
    (processUpdate db uid ud now).2 = true := by
  have hred : processUpdate db uid ud now =
      (memUpdateMemory db m.id ud.new_fact m.fact now, true) := by
    simp only [processUpdate, hk, if_neg hke, hfound]
  rw [hred]
  have hmem := (memGetByKey_oneRow hfound).1
  refine ⟨?_, ?_, ?_, ?_, rfl⟩
  · simp only [memUpdateMemory, List.map_map]
    apply List.map_congr_left
    intro r _
    by_cases h : r.id = m.id <;> simp [h]
  · simp [memUpdateMemory]
  · simp only [memUpdateMemory]
    have : ({ m with
              fact := ud.new_fact
              history := m.history ++ [{ old_value := m.fact, changed_at := now }]
              updated_at := some now } : Memory) =
        (fun mm : Memory => if mm.id == m.id then
          { mm with
              fact := ud.new_fact
              history := mm.history ++ [⟨m.fact, now⟩]
              updated_at := some now }
          else mm) m := by simp
    rw [this]
    exact List.mem_map_of_mem _ hmem
  · intro r hr hne
    simp only [memUpdateMemory]
    have : r = (fun mm : Memory => if mm.id == m.id then
        { mm with
            fact := ud.new_fact
            history := mm.history ++ [⟨m.fact, now⟩]
            updated_at := some now }
        else mm) r := by simp [hne]
    rw [this]
    exact List.mem_map_of_mem _ hr

/-- A concrete current keyed Memory row. -/
def c5row : Memory :=
  { id := 7, user_id := 1, fact := "живёт в Москве", category := "general"
    importance := 5, emotional_weight := "neutral", tags := none
    memory_key := some "location", source_message_id := none, history := []
    is_current := true, last_accessed_at := none, created_at := 0
    updated_at := none }

/-- A store holding just that row. -/
def c5db : DB := { initDB with memories := [c5row], next_memory_id := 8 }

/-- An extracted correction targeting it by key. -/
def c5ud : UpdateData :=
  { memory_key := some "location", old_fact_contains := none
    new_fact := "живёт в Питере" }

theorem claim5_witness :
    ({ c5row with
        fact := "живёт в Питере"
        history := [{ old_value := "живёт в Москве", changed_at := 3 }]
        updated_at := some 3 } : Memory) ∈
        (processUpdate c5db 1 c5ud 3).1.memories ∧
    (processUpdate c5db 1 c5ud 3).1.memories.length = c5db.memories.length := by
  have h := claim5_update_in_place c5db 1 c5ud 3 c5row "location" rfl
    (by decide) (by rfl)
  exact ⟨h.2.2.1, h.2.1⟩

/-! Claim C2: how extracted facts interact with `memory_key`
collisions. -/

/-- The Memory row `processFact` inserts. -/
def factRow (db : DB) (uid : Nat) (fd : FactData) (now : Nat) : Memory :=
  { id := db.next_memory_id, user_id := uid, fact := fd.fact
    category := fd.category.getD "general"
    importance := fd.importance.getD 5
    emotional_weight := fd.emotional_weight.getD "neutral"
    tags := fd.tags, memory_key := fd.memory_key, source_message_id := none
    history := [], is_current := true, last_accessed_at := none
    created_at := now, updated_at := none }

theorem processFact_memories (db : DB) (uid : Nat) (fd : FactData)
    (now : Nat) :
    (processFact db uid fd now).memories =
      db.memories ++ [factRow db uid fd now] := by
  cases h : fd.memory_key == some "user_name" <;>
    cases h2 : extractNameFromFact fd.fact <;>
      simp [processFact, h, h2, memAdd, userUpdateName, factRow]

/-- C2 amended: applying an extracted fact through
`_extract_all_memories` always inserts a fresh row with
`is_current = true` — also when its `memory_key` collides with an
existing current row, so the count of current rows carrying that
`(user, memory_key)` grows by one; no update-in-place happens on the
facts path (only the separate updates path rewrites rows). -/
theorem claim2_fact_always_inserts (db : DB) (uid : Nat) (fd : FactData)
    (now : Nat) :
    (∃ newRow : Memory,
       (processFact db uid fd now).memories = db.memories ++ [newRow] ∧
       newRow.is_current = true ∧ newRow.memory_key = fd.memory_key ∧
       newRow.fact = fd.fact ∧ newRow.id = db.next_memory_id) ∧
    (∀ k : String, fd.memory_key = some k →
       (currentKeyRows (processFact db uid fd now) uid k).length =
         (currentKeyRows db uid k).length + 1) := by
  constructor
  · exact ⟨factRow db uid fd now, processFact_memories db uid fd now, rfl,
      rfl, rfl, rfl⟩
  · intro k hk
    unfold currentKeyRows
    rw [processFact_memories, List.filter_append]
    have : (List.filter (fun m : Memory =>
        m.user_id == uid && m.memory_key == some k && m.is_current)
        [factRow db uid fd now]) = [factRow db uid fd now] := by
      simp [factRow, hk]
    rw [this, List.length_append]
    rfl

/-- An existing current keyed fact. -/
def c2row : Memory :=
  { id := 1, user_id := 1, fact := "работает учителем", category := "work"
    importance := 6, emotional_weight := "neutral", tags := none
    memory_key := some "job", source_message_id := none, history := []
    is_current := true, last_accessed_at := none, created_at := 0
    updated_at := none }

/-- A store holding just that row. -/
def c2db : DB := { initDB with memories := [c2row], next_memory_id := 2 }

/-- A newly extracted fact whose key collides with it. -/
def c2fd : FactData :=
  { fact := "работает врачом", category := some "work", importance := some 6
    emotional_weight := some "neutral", tags := none
    memory_key := some "job" }

/-- The extraction result carrying just that fact. -/
def c2extr : Extraction :=
  { facts := [c2fd], persons := [], events := [], updates := [] }

/-- C2 counterexample: on a store already holding a current row with
key `job`, applying an extracted fact with the same key leaves two
current rows with that `(user, memory_key)` — the claimed
update-in-place (same row rewritten, no insert) does not happen, and
the at-most-one-current invariant is violated. -/
theorem claim2_counterexample :
    (currentKeyRows (extractAllMemories c2db 1 (some c2extr) 0).1 1
        "job").length = 2 ∧
    (extractAllMemories c2db 1 (some c2extr) 0).1.memories.length =
      c2db.memories.length + 1 ∧
    ¬ (∃ r ∈ (extractAllMemories c2db 1 (some c2extr) 0).1.memories,
         r.id = 1 ∧ r.fact = "работает врачом") := by decide

theorem claim2_witness :
    (currentKeyRows (processFact c2db 1 c2fd 0) 1 "job").length =
      (currentKeyRows c2db 1 "job").length + 1 :=
  (claim2_fact_always_inserts c2db 1 c2fd 0).2 "job" rfl

/-! Claim C4: summarization never marks without persisting a covering
summary first. -/

theorem pairwise_head_le {α : Type} (key : α → Nat) {a : α} {t : List α}
    (h : (a :: t).Pairwise (fun x y => key x < key y)) :
    ∀ x ∈ a :: t, key a ≤ key x := by
  intro x hx
  rcases List.mem_cons.mp hx with rfl | hxt
  · exact Nat.le_refl _
  · exact Nat.le_of_lt ((List.pairwise_cons.mp h).1 x hxt)

theorem pairwise_le_getLast {α : Type} (key : α → Nat) {l : List α}
    (h : l.Pairwise (fun x y => key x < key y)) (hne : l ≠ []) :
    ∀ x ∈ l, key x ≤ key (l.getLast hne) := by
  intro x hx
  have hdec := List.dropLast_append_getLast hne
  rw [← hdec] at h hx
  rcases List.mem_append.mp hx with hxd | hxl
  · exact Nat.le_of_lt (((List.pairwise_append.mp h).2.2) x hxd _
      (List.mem_singleton.mpr rfl))
  · rw [List.mem_singleton.mp hxl]

theorem msgGetRecent_pairwise {db : DB} (uid lim : Nat)
    (hs : db.messages.Pairwise (fun a b => a.id < b.id)) :
    (msgGetRecent db uid lim).Pairwise (fun a b => a.id < b.id) :=
  List.Pairwise.sublist
    ((takeLast_sublist _ _).trans (List.filter_sublist _)) hs

/-- C4: a `create_summary` run with fewer than ten available messages,
or whose external summarization returned `None` or an empty text,
changes nothing; and in every run, a message carrying the summarized
flag afterwards either already carried it, or a ConversationSummary
covering its id was persisted in this same run. -/
theorem claim4_no_partial_summary (db : DB) (uid : Nat)
    (stext : Option String)
    (hs : db.messages.Pairwise (fun a b => a.id < b.id)) :
    (((msgGetRecent db uid SUMMARY_THRESHOLD).length < 10 ∨ stext = none ∨
        stext = some "") → (create_summary db uid stext).1 = db) ∧
    (∀ m' ∈ (create_summary db uid stext).1.messages,
       m'.is_summarized = true →
       (∃ m ∈ db.messages, m.id = m'.id ∧ m.is_summarized = true) ∨
       (∃ s : ConversationSummary,
          (create_summary db uid stext).1.summaries = db.summaries ++ [s] ∧
          s.from_message_id ≤ m'.id ∧ m'.id ≤ s.to_message_id)) := by
  by_cases hlen : (msgGetRecent db uid SUMMARY_THRESHOLD).length < 10
  · have hskip : (create_summary db uid stext).1 = db := by
      simp only [create_summary, if_pos hlen]
    refine ⟨fun _ => hskip, ?_⟩
    rw [hskip]
    intro m' hm' hflag
    exact Or.inl ⟨m', hm', rfl, hflag⟩
  · cases stext with
    | none =>
      have hskip : (create_summary db uid none).1 = db := by
        simp only [create_summary, if_neg hlen]
      refine ⟨fun _ => hskip, ?_⟩
      rw [hskip]
      intro m' hm' hflag
      exact Or.inl ⟨m', hm', rfl, hflag⟩
    | some t =>
      by_cases ht : t = ""
      · subst ht
        have hskip : (create_summary db uid (some "")).1 = db := by
          simp [create_summary, if_neg hlen]
        refine ⟨fun _ => hskip, ?_⟩
        rw [hskip]
        intro m' hm' hflag
        exact Or.inl ⟨m', hm', rfl, hflag⟩
      · refine ⟨?_, ?_⟩
        · intro hcontra
          rcases hcontra with h1 | h2 | h3
          · exact absurd h1 hlen
          · cases h2
          · exact absurd (Option.some_injective _ h3) ht
        · have hp : (msgGetRecent db uid SUMMARY_THRESHOLD).Pairwise
              (fun a b => a.id < b.id) :=
            msgGetRecent_pairwise uid SUMMARY_THRESHOLD hs
          cases hm : msgGetRecent db uid SUMMARY_THRESHOLD with
          | nil =>
            rw [hm] at hlen
            exact absurd (by decide) hlen
          | cons m0 rest =>
            rw [hm] at hp hlen
            have hred : create_summary db uid (some t) =
                (msgMarkSummarized
                  (sumCreate db uid t m0.id
                    ((m0 :: rest).getLast (List.cons_ne_nil m0 rest)).id
                    (m0 :: rest).length).1
                  ((m0 :: rest).map (fun m => m.id)), some t) := by
              simp only [create_summary, hm, if_neg hlen, if_neg ht]
            rw [hred]
            intro m' hm' hflag
            simp only [msgMarkSummarized, sumCreate] at hm'
            rcases List.mem_map.mp hm' with ⟨m, hmdb, hphi⟩
            by_cases hin : m.id ∈ (m0 :: rest).map (fun m => m.id)
            · right
              have hid : m'.id = m.id := by rw [← hphi, if_pos hin]
              rcases List.mem_map.mp hin with ⟨x, hx, hxid⟩
              refine ⟨_, rfl, ?_, ?_⟩
              · rw [hid, ← hxid]
                exact pairwise_head_le (fun mm : Message => mm.id) hp x hx
              · rw [hid, ← hxid]
                exact pairwise_le_getLast (fun mm : Message => mm.id) hp
                  (List.cons_ne_nil m0 rest) x hx
            · left
              have hmm : m' = m := by rw [← hphi, if_neg hin]
              exact ⟨m, hmdb, (congrArg (fun z : Message => z.id) hmm).symm,
                hmm ▸ hflag⟩

/-- Five stored messages: too few to summarize. -/
def c4dbSmall : DB :=
  { initDB with
      messages := (List.range 5).map (fun i =>
        { id := i + 1, user_id := 1, role := "user", content := "привет"
          tokens_used := none, response_time_ms := none
          is_summarized := false, created_at := i })
      next_message_id := 6 }

theorem claim4_witness :
    (create_summary c4dbSmall 1 (some "итог")).1 = c4dbSmall :=
  (claim4_no_partial_summary c4dbSmall 1 (some "итог") (by decide)).1
    (Or.inl (by decide))

/-! Claim C7: upcoming important dates. -/

theorem mem_upcomingOfPerson {today : Date} {days : Nat} {p : Person}
    {e : UpcomingDate} (h : e ∈ upcomingOfPerson today days p) :
    0 ≤ e.days_until ∧ e.days_until ≤ (days : Int) := by
  unfold upcomingOfPerson at h
  cases hd : p.important_dates with
  | none => rw [hd] at h; cases h
  | some entries =>
    rw [hd] at h
    rcases List.mem_filterMap.mp h with ⟨a, _, hfa⟩
    simp only [bind, Option.bind_eq_some] at hfa
    rcases hfa with ⟨d, _, occ, _, hif⟩
    by_cases hcond : 0 ≤ (dateOrd occ : Int) - (dateOrd today : Int) ∧
        (dateOrd occ : Int) - (dateOrd today : Int) ≤ (days : Int)
    · rw [if_pos hcond] at hif
      cases hif
      exact hcond
    · rw [if_neg hcond] at hif
      cases hif

/-- A person with a birthday five days after 2026-10-12. -/
def c7db : DB :=
  { initDB with
      persons := [{ id := 1, user_id := 1, name := "Мама", relation := "мама"
                    notes := none, emotional_tone := "positive"
                    important_dates := some [("birthday", "1990-10-17")]
                    is_active := true, created_at := 0 }]
      next_person_id := 2 }

/-- A person whose birthday already passed this year as of 2026-12-25. -/
def c7dbRoll : DB :=
  { initDB with
      persons := [{ id := 1, user_id := 1, name := "Мама", relation := "мама"
                    notes := none, emotional_tone := "positive"
                    important_dates := some [("birthday", "1990-01-05")]
                    is_active := true, created_at := 0 }]
      next_person_id := 2 }

/-- C7: every entry `get_upcoming_dates` returns lies within zero and
`days` days of today; the result is sorted ascending by `days_until`;
a birthday five days from today is returned with `days_until = 5`, and
a birthday that already passed this year rolls to next year's date. -/
theorem claim7_upcoming_dates (db : DB) (uid : Nat) (today : Date)
    (days : Nat) :
    (∀ e ∈ get_upcoming_dates db uid today days,
       0 ≤ e.days_until ∧ e.days_until ≤ (days : Int)) ∧
    (get_upcoming_dates db uid today days).Pairwise
      (fun a b => a.days_until ≤ b.days_until) ∧
    get_upcoming_dates c7db 1 ⟨2026, 10, 12⟩ 14 =
      [{ person_name := "Мама", date_type := "birthday"
         date := ⟨2026, 10, 17⟩, days_until := 5 }] ∧
    get_upcoming_dates c7dbRoll 1 ⟨2026, 12, 25⟩ 14 =
      [{ person_name := "Мама", date_type := "birthday"
         date := ⟨2027, 1, 5⟩, days_until := 11 }] ∧
    (∀ p ∈ personGetAll db uid, ∀ e ∈ p.important_dates.getD [],
      ∀ d occ : Date, parseDate e.2 = some d →
      nextOccurrence today d = some occ →
      0 ≤ (dateOrd occ : Int) - (dateOrd today : Int) →
      (dateOrd occ : Int) - (dateOrd today : Int) ≤ (days : Int) →
      ({ person_name := p.name, date_type := e.1, date := occ
         days_until := (dateOrd occ : Int) - (dateOrd today : Int) } :
        UpcomingDate) ∈ get_upcoming_dates db uid today days) := by
  refine ⟨?_, ?_, by decide, by decide, ?_⟩
  · intro e he
    unfold get_upcoming_dates at he
    rcases List.mem_flatMap.mp (mem_sortBy.mp he) with ⟨p, _, hp⟩
    exact mem_upcomingOfPerson hp
  · unfold get_upcoming_dates
    have hsorted := @pairwise_sortBy UpcomingDate
      (fun a b : UpcomingDate => decide (a.days_until ≤ b.days_until))
      (fun a b => by
        rcases le_total a.days_until b.days_until with h | h <;>
          simp [h])
      (fun a b c hab hbc => decide_eq_true
        (le_trans (of_decide_eq_true hab) (of_decide_eq_true hbc)))
      ((personGetAll db uid).flatMap (upcomingOfPerson today days))
    exact hsorted.imp (fun h => of_decide_eq_true h)
  · intro p hp e he d occ hd hocc h0 h1
    unfold get_upcoming_dates
    refine mem_sortBy.mpr (List.mem_flatMap.mpr ⟨p, hp, ?_⟩)
    unfold upcomingOfPerson
    cases hid : p.important_dates with
    | none =>
      rw [hid] at he
      cases he
    | some entries =>
      rw [hid] at he
      refine List.mem_filterMap.mpr ⟨e, he, ?_⟩
      show (parseDate e.2).bind _ = _
      rw [hd, Option.some_bind]
      show (nextOccurrence today d).bind _ = _
      rw [hocc, Option.some_bind]
      show (if _ then _ else _) = _
      rw [if_pos ⟨h0, h1⟩]
      rfl

theorem claim7_witness :
    (0 : Int) ≤ (5 : Int) ∧ (5 : Int) ≤ ((14 : Nat) : Int) :=
  (claim7_upcoming_dates c7db 1 ⟨2026, 10, 12⟩ 14).1
    { person_name := "Мама", date_type := "birthday"
      date := ⟨2026, 10, 17⟩, days_until := 5 } (by decide)

/-! Claims C8 and C10: the quota gate. -/

/-- The user the handler works with: the row `get_or_create` returns. -/
def turnUser (db : DB) (inp : TurnInput) : User :=
  (userGetOrCreate db inp.telegram_id).2.1

/-- The store after `get_or_create` (a User plus free Subscription may
have been inserted). -/
def turnDB (db : DB) (inp : TurnInput) : DB :=
  (userGetOrCreate db inp.telegram_id).1

theorem handle_message_blocked_eq (st : Settings) (db : DB)
    (inp : TurnInput) :
    (handle_message st db inp).blocked =
      (!st.admin_telegram_ids.contains inp.telegram_id &&
        decide (get_plan_limit st (turnDB db inp) (turnUser db inp).id inp.now ≤
          msgCountToday (turnDB db inp) (turnUser db inp).id inp.todayStart)) := by
  simp only [handle_message, turnDB, turnUser]
  split
  next hcond => simp_all
  next hcond =>
    rw [Bool.not_eq_true] at hcond
    rw [hcond]
    repeat' split
    all_goals rfl

/-- C8: for a non-admin sender, the handler blocks the turn exactly
when the count of the user's user-role messages of the current UTC day
has reached the plan-derived daily limit. -/
theorem claim8_quota_gate (st : Settings) (db : DB) (inp : TurnInput)
    (hadmin : st.admin_telegram_ids.contains inp.telegram_id = false) :
    (handle_message st db inp).blocked = true ↔
      get_plan_limit st (turnDB db inp) (turnUser db inp).id inp.now ≤
        msgCountToday (turnDB db inp) (turnUser db inp).id inp.todayStart := by
  rw [handle_message_blocked_eq, hadmin]
  simp

theorem userGetOrCreate_frame (db : DB) (tg : Nat) :
    (userGetOrCreate db tg).1.messages = db.messages ∧
    (userGetOrCreate db tg).1.moods = db.moods ∧
    (userGetOrCreate db tg).1.memories = db.memories ∧
    (userGetOrCreate db tg).1.usage_logs = db.usage_logs := by
  unfold userGetOrCreate
  split <;> simp

/-- C10: a turn the quota gate blocks returns before persisting
anything on the turn's tables: the incoming text is not saved as a
Message row, and no mood, memory or usage record is written. -/
theorem claim10_blocked_no_writes (st : Settings) (db : DB)
    (inp : TurnInput) (hb : (handle_message st db inp).blocked = true) :
    (handle_message st db inp).db.messages = db.messages ∧
    (handle_message st db inp).db.moods = db.moods ∧
    (handle_message st db inp).db.memories = db.memories ∧
    (handle_message st db inp).db.usage_logs = db.usage_logs := by
  have hcond : (!st.admin_telegram_ids.contains inp.telegram_id &&
      decide (get_plan_limit st (userGetOrCreate db inp.telegram_id).1
          (userGetOrCreate db inp.telegram_id).2.1.id inp.now ≤
        msgCountToday (userGetOrCreate db inp.telegram_id).1
          (userGetOrCreate db inp.telegram_id).2.1.id inp.todayStart)) = true :=
    (handle_message_blocked_eq st db inp).symm.trans hb
  have hred : handle_message st db inp =
      { db := (userGetOrCreate db inp.telegram_id).1
        replies := [limit_reached_text], crisisNotices := 0
        blocked := true } := by
    simp only [handle_message]
    rw [if_pos hcond]
  rw [hred]
  exact userGetOrCreate_frame db inp.telegram_id

/-- config.py defaults: ten free messages per day, no admins. -/
def quotaSettings : Settings :=
  { free_messages_per_day := 10, basic_messages_per_day := 100
    premium_messages_per_day := 1000, admin_telegram_ids := [] }

/-- An onboarded free-tier user. -/
def quotaUser : User :=
  { id := 1, telegram_id := 42, name := some "Игорь"
    onboarding_completed := true, last_active_at := none }

/-- `n` user-role messages sent today. -/
def quotaMsgs (n : Nat) : List Message :=
  (List.range n).map (fun i =>
    { id := i + 1, user_id := 1, role := "user", content := "сообщение"
      tokens_used := none, response_time_ms := none, is_summarized := false
      created_at := 100 })

/-- A store where the user has sent `n` messages today. -/
def quotaDB (n : Nat) : DB :=
  { initDB with
      users := [quotaUser]
      subscriptions := [{ user_id := 1, plan := "free", status := "active"
                          expires_at := none }]
      messages := quotaMsgs n
      next_user_id := 2, next_message_id := n + 1 }

/-- The incoming turn of that user. -/
def quotaInp : TurnInput :=
  { telegram_id := 42, text := "привет", now := 100, todayStart := 50
    mood := none, extraction := none, genResponse := none
    fallbackText := "я здесь", summaryText := none }

theorem claim8_witness :
    (handle_message quotaSettings (quotaDB 10) quotaInp).blocked = true ∧
    (handle_message quotaSettings (quotaDB 9) quotaInp).blocked = false := by
  constructor
  · exact (claim8_quota_gate quotaSettings (quotaDB 10) quotaInp
      (by decide)).mpr (by decide)
  · cases hb : (handle_message quotaSettings (quotaDB 9) quotaInp).blocked
    · rfl
    · exact absurd ((claim8_quota_gate quotaSettings (quotaDB 9) quotaInp
        (by decide)).mp hb) (by decide)

theorem claim10_witness :
    (handle_message quotaSettings (quotaDB 10) quotaInp).db.messages =
      (quotaDB 10).messages ∧
    (handle_message quotaSettings (quotaDB 10) quotaInp).db.moods =
      (quotaDB 10).moods :=
  have h := claim10_blocked_no_writes quotaSettings (quotaDB 10) quotaInp
    (by decide)
  ⟨h.1, h.2.1⟩

/-! Claim C1: crisis turns and extraction. -/

theorem processFact_memories_length (d : DB) (uid : Nat) (fd : FactData)
    (now : Nat) :
    (processFact d uid fd now).memories.length = d.memories.length + 1 := by
  rw [processFact_memories]; simp

theorem processPerson_memories (d : DB) (uid : Nat) (pd : PersonData)
    (now : Nat) : (processPerson d uid pd now).memories = d.memories := by
  cases h : personGetByName d uid pd.name <;>
    simp [processPerson, h, personUpdate, personAdd]

theorem processEvent_memories (d : DB) (uid : Nat) (ed : EventData)
    (now : Nat) : (processEvent d uid ed now).memories = d.memories := by
  simp [processEvent, eventAdd]

theorem processUpdate_memories_length (d : DB) (uid : Nat) (ud : UpdateData)
    (now : Nat) :
    (processUpdate d uid ud now).1.memories.length = d.memories.length := by
  simp only [processUpdate]
  split
  · rfl
  · simp [memUpdateMemory]
  · split
    · simp [memUpdateMemory]
    · rfl

theorem extractAllMemories_memories_length (db : DB) (uid : Nat)
    (ex : Option Extraction) (now : Nat) :
    (extractAllMemories db uid ex now).1.memories.length =
      db.memories.length + extFactsCount ex := by
  cases ex with
  | none => rfl
  | some e =>
    have hf : ∀ (l : List FactData) (d : DB),
        (l.foldl (fun d fd => processFact d uid fd now) d).memories.length =
          d.memories.length + l.length := by
      intro l
      induction l with
      | nil => intro d; simp
      | cons a t ih =>
        intro d
        rw [List.foldl_cons, ih, processFact_memories_length,
          List.length_cons]
        omega
    have hp : ∀ (l : List PersonData) (d : DB),
        (l.foldl (fun d pd => processPerson d uid pd now) d).memories =
          d.memories :=
      foldl_proj_eq (fun d a => processPerson_memories d uid a now)
    have he : ∀ (l : List EventData) (d : DB),
        (l.foldl (fun d ed => processEvent d uid ed now) d).memories =
          d.memories :=
      foldl_proj_eq (fun d a => processEvent_memories d uid a now)
    have hu : ∀ (l : List UpdateData) (p : DB × Nat),
        ((l.foldl (fun (acc : DB × Nat) ud =>
            let r := processUpdate acc.1 uid ud now
            (r.1, acc.2 + (if r.2 then 1 else 0))) p).1).memories.length =
          p.1.memories.length :=
      foldl_proj_eq (g := fun q : DB × Nat => q.1.memories.length)
        (f := fun (acc : DB × Nat) ud =>
          let r := processUpdate acc.1 uid ud now
          (r.1, acc.2 + (if r.2 then 1 else 0)))
        (fun d a => processUpdate_memories_length d.1 uid a now)
    simp only [extractAllMemories, extFactsCount]
    rw [hu, he, hp, hf]

theorem process_message_att (db : DB) (uid : Nat) (t : String)
    (md : MoodData) (ex : Option Extraction) (now : Nat) :
    (process_message db uid t "user" (some md) ex now).2.requires_attention =
      md.requires_attention.getD false := rfl

theorem process_message_db_some (db : DB) (uid : Nat) (t : String)
    (md : MoodData) (ex : Option Extraction) (now : Nat) :
    (process_message db uid t "user" (some md) ex now).1 =
      (extractAllMemories (moodAdd db uid (md.mood_score.getD 5)
        md.energy_level md.anxiety_level md.primary_emotion
        md.secondary_emotions md.emotional_need "auto"
        (md.requires_attention.getD false) now).1 uid ex now).1 := rfl

/-- C1 amended: on a turn whose mood inference sets
`requires_attention`, the handler emits exactly one escalation to the
admin collaborator and answers with the fixed crisis response — but
fact/person/event extraction is still invoked for the turn (inside
`process_message`, before the handler checks the flag), so every
extracted fact is persisted as a Memory row even on a crisis turn. -/
theorem claim1_crisis_notifies_but_extracts (st : Settings) (db : DB)
    (inp : TurnInput) (md : MoodData) (hmood : inp.mood = some md)
    (hatt : md.requires_attention = some true)
    (hnb : (handle_message st db inp).blocked = false) :
    (handle_message st db inp).crisisNotices = 1 ∧
    (handle_message st db inp).replies = [crisis_response_text] ∧
    (handle_message st db inp).db.memories.length =
      db.memories.length + extFactsCount inp.extraction := by
  have hcf : (!st.admin_telegram_ids.contains inp.telegram_id &&
      decide (get_plan_limit st (userGetOrCreate db inp.telegram_id).1
          (userGetOrCreate db inp.telegram_id).2.1.id inp.now ≤
        msgCountToday (userGetOrCreate db inp.telegram_id).1
          (userGetOrCreate db inp.telegram_id).2.1.id inp.todayStart)) =
      false := by
    have h := handle_message_blocked_eq st db inp
    rw [hnb] at h
    exact h.symm
  simp only [handle_message]
  rw [if_neg (by rw [hcf]; exact Bool.false_ne_true), hmood]
  rw [if_pos (by
    rw [process_message_att, hatt]
    rfl)]
  refine ⟨rfl, rfl, ?_⟩
  show (process_message _ _ _ "user" (some md) inp.extraction
      inp.now).1.memories.length = db.memories.length + _
  rw [process_message_db_some, extractAllMemories_memories_length]
  split
  · show ((userGetOrCreate db inp.telegram_id).1).memories.length + _ = _
    rw [(userGetOrCreate_frame db inp.telegram_id).2.2.1]
  · show ((userGetOrCreate db inp.telegram_id).1).memories.length + _ = _
    rw [(userGetOrCreate_frame db inp.telegram_id).2.2.1]

/-- A mood inference flagged as requiring attention. -/
def c1md : MoodData :=
  { mood_score := some 2, energy_level := none, anxiety_level := some 9
    primary_emotion := some "отчаяние", secondary_emotions := none
    emotional_need := some "поддержка", requires_attention := some true
    crisis_indicators := some ["суицидальные мысли"] }

/-- An extraction result carrying one fact on the same turn. -/
def c1extr : Extraction :=
  { facts := [{ fact := "потерял работу", category := some "struggles"
                importance := some 8, emotional_weight := some "painful"
                tags := none, memory_key := none }]
    persons := [], events := [], updates := [] }

/-- The crisis turn: mood flagged, extraction nonempty. -/
def c1inp : TurnInput :=
  { telegram_id := 42, text := "мне очень плохо", now := 100
    todayStart := 50, mood := some c1md, extraction := some c1extr
    genResponse := none, fallbackText := "я рядом", summaryText := none }

/-- C1 counterexample: on a crisis turn (`requires_attention = true`,
one escalation emitted, crisis response sent) the Memory table still
changes — the turn's extracted fact was persisted, so extraction was
invoked for the turn, contradicting the claim that it is skipped. -/
theorem claim1_counterexample :
    (handle_message quotaSettings (quotaDB 0) c1inp).crisisNotices = 1 ∧
    (handle_message quotaSettings (quotaDB 0) c1inp).replies =
      [crisis_response_text] ∧
    ¬ ((handle_message quotaSettings (quotaDB 0) c1inp).db.memories =
      (quotaDB 0).memories) := by decide

theorem claim1_witness :
    (handle_message quotaSettings (quotaDB 0) c1inp).crisisNotices = 1 ∧
    (handle_message quotaSettings (quotaDB 0) c1inp).db.memories.length =
      (quotaDB 0).memories.length + extFactsCount c1inp.extraction := by
  have h := claim1_crisis_notifies_but_extracts quotaSettings (quotaDB 0)
    c1inp c1md rfl rfl (by decide)
  exact ⟨h.1, h.2.2⟩

/-! Claim C9: the `user_name` reserved key and what the regex really
extracts. -/

theorem letter_not_space {c : Char} (h : isRuLetter c = true) :
    isSpaceChar c = false := by
  cases hs : isSpaceChar c
  · rfl
  · exfalso
    simp only [isSpaceChar, Bool.or_eq_true, decide_eq_true_eq] at hs
    rcases hs with ((rfl | rfl) | rfl) | rfl <;> exact absurd h (by decide)

theorem dropWhile_space_of_letters {l : List Char}
    (h : l.all isRuLetter = true) : l.dropWhile isSpaceChar = l := by
  cases l with
  | nil => rfl
  | cons c t =>
    have hc : isRuLetter c = true := by
      simp only [List.all_cons, Bool.and_eq_true] at h
      exact h.1
    rw [List.dropWhile_cons, letter_not_space hc]
    simp

theorem stripWsL_of_letters {l : List Char} (h : l.all isRuLetter = true) :
    stripWsL l = l := by
  unfold stripWsL
  rw [dropWhile_space_of_letters h,
    dropWhile_space_of_letters (by rwa [List.all_reverse]),
    List.reverse_reverse]

theorem groupAt_spec {cs t : List Char} (h : groupAt cs = some t) :
    t <+: cs ∧ t.all isRuLetter = true ∧ 2 ≤ t.length := by
  cases cs with
  | nil => cases h
  | cons c1 cs' =>
    cases cs' with
    | nil => cases h
    | cons c2 rest =>
      rw [show groupAt (c1 :: c2 :: rest) =
          (if (isRuLetter c1 && isRuLetter c2) = true then
            some (c1 :: c2 :: rest.takeWhile isRuLetter) else none) from
          rfl] at h
      by_cases hcc : (isRuLetter c1 && isRuLetter c2) = true
      · rw [if_pos hcc] at h
        cases h
        refine ⟨⟨rest.dropWhile isRuLetter, by
          simp [List.takeWhile_append_dropWhile]⟩, ?_, by simp⟩
        simp only [Bool.and_eq_true] at hcc
        simp only [List.all_cons, Bool.and_eq_true]
        refine ⟨hcc.1, hcc.2, ?_⟩
        rw [List.all_eq_true]
        intro x hx
        exact List.mem_takeWhile_imp hx
      · rw [if_neg hcc] at h
        cases h

theorem searchPat2_spec :
    ∀ {cs t : List Char}, searchPat2 cs = some t →
      t <:+: cs ∧ t.all isRuLetter = true ∧ 2 ≤ t.length := by
  intro cs
  induction cs with
  | nil => intro t h; cases h
  | cons c rest ih =>
    intro t h
    unfold searchPat2 at h
    cases hg : groupAt (c :: rest) with
    | some g =>
      rw [hg] at h
      cases h
      obtain ⟨hp, hall, hlen⟩ := groupAt_spec hg
      exact ⟨hp.isInfix, hall, hlen⟩
    | none =>
      rw [hg] at h
      obtain ⟨hi, hall, hlen⟩ := ih h
      exact ⟨List.infix_cons hi, hall, hlen⟩

theorem litMatch_suffix :
    ∀ {lit cs rest : List Char}, litMatch lit cs = some rest → rest <:+ cs := by
  intro lit
  induction lit with
  | nil =>
    intro cs rest h
    cases h
    exact List.suffix_rfl
  | cons l ls ih =>
    intro cs rest h
    cases cs with
    | nil => cases h
    | cons c t =>
      unfold litMatch at h
      split at h
      · exact (ih h).trans (List.suffix_cons c t)
      · cases h

theorem dropWhile_suffix (p : Char → Bool) (l : List Char) :
    l.dropWhile p <:+ l :=
  ⟨l.takeWhile p, List.takeWhile_append_dropWhile p l⟩

theorem pat1At_spec {cs t : List Char} (h : pat1At cs = some t) :
    t <:+: cs ∧ t.all isRuLetter = true ∧ 2 ≤ t.length := by
  unfold pat1At at h
  rcases hlit : ((litMatch "имя".data cs).orElse
      (fun _ => litMatch "зовут".data cs)).orElse
      (fun _ => litMatch "называть".data cs) with _ | rest
  · rw [hlit] at h; cases h
  · rw [hlit] at h
    simp only [Option.some_bind] at h
    have hrest : rest <:+ cs := by
      rcases h1 : litMatch "имя".data cs with _ | r1
      · rcases h2 : litMatch "зовут".data cs with _ | r2
        · rcases h3 : litMatch "называть".data cs with _ | r3
          · rw [h1, h2, h3] at hlit; cases hlit
          · rw [h1, h2, h3] at hlit
            cases hlit
            exact litMatch_suffix h3
        · rw [h1, h2] at hlit
          cases hlit
          exact litMatch_suffix h2
      · rw [h1] at hlit
        cases hlit
        exact litMatch_suffix h1
    set r1 := rest.dropWhile isSpaceChar with hr1
    have hsub1 : r1 <:+ rest := dropWhile_suffix _ _
    have hsub2 : (match r1 with
        | c :: t => if c = ':' || c = '-' then t else r1
        | [] => r1) <:+ r1 := by
      match r1 with
      | [] => exact List.suffix_rfl
      | c :: t' =>
        dsimp only
        split
        · exact List.suffix_cons c t'
        · exact List.suffix_rfl
    obtain ⟨hp, hall, hlen⟩ := groupAt_spec h
    refine ⟨hp.isInfix.trans (((dropWhile_suffix _ _).trans
      (hsub2.trans (hsub1.trans hrest))).isInfix), hall, hlen⟩

theorem searchPat1_spec :
    ∀ {cs t : List Char}, searchPat1 cs = some t →
      t <:+: cs ∧ t.all isRuLetter = true ∧ 2 ≤ t.length := by
  intro cs
  induction cs with
  | nil => intro t h; cases h
  | cons c rest ih =>
    intro t h
    unfold searchPat1 at h
    cases hp : pat1At (c :: rest) with
    | some g =>
      rw [hp] at h
      cases h
      exact pat1At_spec hp
    | none =>
      rw [hp] at h
      obtain ⟨hi, hall, hlen⟩ := ih h
      exact ⟨List.infix_cons hi, hall, hlen⟩

theorem tryName_spec {tok : List Char} {n : String}
    (hall : tok.all isRuLetter = true) (h : tryName tok = some n) :
    genericNameWords.contains (⟨tok.map ruLower⟩ : String) = false ∧
      n = ⟨capList tok⟩ := by
  unfold tryName at h
  rw [stripWsL_of_letters hall] at h
  split at h
  · cases h
  · cases h
    rename_i hg
    exact ⟨Bool.not_eq_true _ ▸ hg, rfl⟩

theorem pat2_path_spec {cs : List Char} {n : String}
    (h : (searchPat2 cs).bind tryName = some n) :
    ∃ t : List Char, t <:+: cs ∧ t.all isRuLetter = true ∧ 2 ≤ t.length ∧
      genericNameWords.contains (⟨t.map ruLower⟩ : String) = false ∧
      n = ⟨capList t⟩ := by
  rcases Option.bind_eq_some.mp h with ⟨tok, hs2, htn⟩
  obtain ⟨hi, hall, hlen⟩ := searchPat2_spec hs2
  obtain ⟨hg, hn⟩ := tryName_spec hall htn
  exact ⟨tok, hi, hall, hlen, hg, hn⟩

/-- What `_extract_name_from_fact` returns, when it returns a name: the
`capitalize` of some contiguous letter run of the fact text, of length
at least two, matched case-insensitively and not a generic word. -/
theorem extractNameFromFact_spec {fact n : String}
    (h : extractNameFromFact fact = some n) :
    ∃ t : List Char, t <:+: fact.data ∧ t.all isRuLetter = true ∧
      2 ≤ t.length ∧
      genericNameWords.contains (⟨t.map ruLower⟩ : String) = false ∧
      n = ⟨capList t⟩ := by
  unfold extractNameFromFact at h
  split at h
  · rename_i tok h1
    split at h
    · rename_i n' h2
      cases h
      obtain ⟨hi, hall, hlen⟩ := searchPat1_spec h1
      obtain ⟨hg, hn⟩ := tryName_spec hall h2
      exact ⟨tok, hi, hall, hlen, hg, hn⟩
    · exact pat2_path_spec h
  · exact pat2_path_spec h

/-- C9 amended: a fact carrying the reserved key `user_name` triggers
name extraction, and when a name is found the User's display name is
set to it; the extracted name is the capitalization of a letter run of
the fact text matched case-insensitively (not necessarily a token that
was capitalized in the text), skipping the fixed generic words; when no
name is found the User rows are untouched. -/
theorem claim9_user_name_write (db : DB) (uid : Nat) (fd : FactData)
    (now : Nat) (hkey : fd.memory_key = some "user_name") :
    (∀ n : String, extractNameFromFact fd.fact = some n →
       (processFact db uid fd now).users = (userUpdateName db uid n).users ∧
       ∃ t : List Char, t <:+: fd.fact.data ∧ t.all isRuLetter = true ∧
         2 ≤ t.length ∧
         genericNameWords.contains (⟨t.map ruLower⟩ : String) = false ∧
         n = ⟨capList t⟩) ∧
    (extractNameFromFact fd.fact = none →
       (processFact db uid fd now).users = db.users) := by
  constructor
  · intro n hn
    exact ⟨by simp [processFact, hkey, hn, memAdd],
      extractNameFromFact_spec hn⟩
  · intro hn
    simp [processFact, hkey, hn, memAdd]

/-- A user currently named with the onboarding placeholder. -/
def c9db : DB :=
  { initDB with
      users := [{ id := 1, telegram_id := 42, name := some "Друг"
                  onboarding_completed := true, last_active_at := none }]
      next_user_id := 2 }

/-- An extracted `user_name` fact whose text is entirely lower-case. -/
def c9fd : FactData :=
  { fact := "зовут игорь", category := some "identity", importance := some 9
    emotional_weight := some "neutral", tags := none
    memory_key := some "user_name" }

/-- The extraction result carrying just that fact. -/
def c9extr : Extraction :=
  { facts := [c9fd], persons := [], events := [], updates := [] }

/-- C9 counterexample: the fact text `зовут игорь` contains no
capitalized token at all (every character is lower-case), and the
written name `Игорь` does not occur in the text — yet the display name
is set to `Игорь`, because `re.IGNORECASE` lets the `[А-ЯЁA-Z][а-яёa-z]+`
classes match the lower-case `игорь`, which is then capitalized. -/
theorem claim9_counterexample :
    ((extractAllMemories c9db 1 (some c9extr) 0).1.users.map
      (fun u => u.name)) = [some "Игорь"] ∧
    ("зовут игорь").data.all (fun c => !(charBetween 'А' 'Я' c ||
      charBetween 'A' 'Z' c || c = 'Ё')) = true ∧
    ¬ (("Игорь").data <:+: ("зовут игорь").data) := by decide

theorem claim9_witness :
    (processFact c9db 1 c9fd 0).users =
      (userUpdateName c9db 1 "Игорь").users :=
  ((claim9_user_name_write c9db 1 c9fd 0 rfl).1 "Игорь" (by decide)).1

/-! Claim C3: the summarization window and summary-range disjointness.
Generic lemmas about `takeLast` first. -/

theorem takeLast_takeLast (l : List α) {k n : Nat} (h : n ≤ k) :
    takeLast (takeLast l k) n = takeLast l n := by
  unfold takeLast
  rw [List.length_drop, List.drop_drop]
  congr 1
  omega

theorem takeLast_one {l : List α} (h : l ≠ []) :
    takeLast l 1 = [l.getLast h] := by
  induction l with
  | nil => exact absurd rfl h
  | cons a t ih =>
    cases t with
    | nil => rfl
    | cons b t' =>
      have hstep : takeLast (a :: b :: t') 1 = takeLast (b :: t') 1 := by
        unfold takeLast
        rw [List.length_cons,
          show (b :: t').length + 1 - 1 = ((b :: t').length - 1) + 1 from by
            simp, List.drop_succ_cons]
      rw [hstep, ih (List.cons_ne_nil b t')]
      rfl

/-- In a list along which `P` only switches from false to true, if at
least `n` elements of it satisfy `P`, then its last `n` elements all
do. -/
theorem all_takeLast_of_le_countP (P : α → Bool) :
    ∀ (M : List α), M.Pairwise (fun a b => P a = true → P b = true) →
      ∀ n, n ≤ M.countP P → ∀ x ∈ takeLast M n, P x = true := by
  intro M
  induction M with
  | nil =>
    intro _ n _ x hx
    rw [show takeLast ([] : List α) n = [] from by simp [takeLast]] at hx
    cases hx
  | cons a t ih =>
    intro hp n hn x hx
    by_cases hpa : P a = true
    · have hall := (List.pairwise_cons.mp hp).1
      rcases List.mem_cons.mp (mem_takeLast hx) with rfl | hxt
      · exact hpa
      · exact hall x hxt hpa
    · have hc : (a :: t).countP P = t.countP P :=
        List.countP_cons_of_neg P _ hpa
      have hn' : n ≤ t.countP P := hc ▸ hn
      have ht : takeLast (a :: t) n = takeLast t n := by
        unfold takeLast
        rw [List.length_cons,
          show t.length + 1 - n = (t.length - n) + 1 from by
            have := hn'.trans (List.countP_le_length P)
            omega,
          List.drop_succ_cons]
      rw [ht] at hx
      exact ih (List.pairwise_cons.mp hp).2 n hn' x hx

/-- In a chain of summaries, every range ends at or before the last
row's upper bound. -/
theorem chained_le_getLast {l : List ConversationSummary}
    (hc : l.Pairwise (fun a b => a.to_message_id < b.from_message_id))
    (hr : ∀ s ∈ l, s.from_message_id ≤ s.to_message_id) (hne : l ≠ []) :
    ∀ p ∈ l, p.to_message_id ≤ (l.getLast hne).to_message_id := by
  intro p hp
  have hdec := List.dropLast_append_getLast hne
  rw [← hdec] at hc hp
  rcases List.mem_append.mp hp with hpd | hpl
  · have h1 := ((List.pairwise_append.mp hc).2.2) p hpd _
      (List.mem_singleton.mpr rfl)
    exact le_trans (Nat.le_of_lt h1) (hr _ (List.getLast_mem hne))
  · rw [List.mem_singleton.mp hpl]

/-- The store invariant behind C3: message ids grow along the table and
stay below the allocator, and each user's summaries form a chain of
disjoint ranges in creation order. -/
structure DBInv (db : DB) : Prop where
  msorted : db.messages.Pairwise (fun a b => a.id < b.id)
  mbound : ∀ m ∈ db.messages, m.id < db.next_message_id
  chained : ∀ uid, List.Pairwise
    (fun a b => a.to_message_id < b.from_message_id) (userSummaries db uid)
  ranged : ∀ uid, ∀ s ∈ userSummaries db uid,
    s.from_message_id ≤ s.to_message_id

theorem DBInv_congr {db db' : DB} (h : DBInv db)
    (hm : db'.messages = db.messages)
    (hn : db'.next_message_id = db.next_message_id)
    (hs : db'.summaries = db.summaries) : DBInv db' := by
  constructor
  · rw [hm]; exact h.msorted
  · rw [hm, hn]; exact h.mbound
  · intro uid
    show List.Pairwise _ (db'.summaries.filter _)
    rw [hs]
    exact h.chained uid
  · intro uid s hsmem
    refine h.ranged uid s ?_
    show s ∈ db.summaries.filter _
    rw [← hs]
    exact hsmem

theorem userGetOrCreate_msgsum (db : DB) (tg : Nat) :
    (userGetOrCreate db tg).1.messages = db.messages ∧
    (userGetOrCreate db tg).1.next_message_id = db.next_message_id ∧
    (userGetOrCreate db tg).1.summaries = db.summaries := by
  unfold userGetOrCreate
  split <;> exact ⟨rfl, rfl, rfl⟩

theorem contextMarkAccessed_msgsum (db : DB) (uid : Nat) (msg : String)
    (now : Nat) :
    (contextMarkAccessed db uid msg now).messages = db.messages ∧
    (contextMarkAccessed db uid msg now).next_message_id =
      db.next_message_id ∧
    (contextMarkAccessed db uid msg now).summaries = db.summaries := by
  simp only [contextMarkAccessed]
  split
  · exact ⟨rfl, rfl, rfl⟩
  · split <;> exact ⟨rfl, rfl, rfl⟩

theorem usageIncrement_msgsum (db : DB) (uid m t c today : Nat) :
    (usageIncrement db uid m t c today).messages = db.messages ∧
    (usageIncrement db uid m t c today).next_message_id =
      db.next_message_id ∧
    (usageIncrement db uid m t c today).summaries = db.summaries := by
  unfold usageIncrement
  split <;> exact ⟨rfl, rfl, rfl⟩

theorem process_message_msgsum (db : DB) (uid : Nat) (t : String)
    (mood : Option MoodData) (ex : Option Extraction) (now : Nat) :
    (process_message db uid t "user" mood ex now).1.messages = db.messages ∧
    (process_message db uid t "user" mood ex now).1.next_message_id =
      db.next_message_id ∧
    (process_message db uid t "user" mood ex now).1.summaries =
      db.summaries := by
  cases mood with
  | none =>
    refine ⟨?_, ?_, ?_⟩
    · show (extractAllMemories db uid ex now).1.messages = db.messages
      exact extractAllMemories_messages db uid ex now
    · show (extractAllMemories db uid ex now).1.next_message_id =
        db.next_message_id
      exact congrArg (fun t => t.2.1) (extractAllMemories_extFrame db uid ex now)
    · show (extractAllMemories db uid ex now).1.summaries = db.summaries
      exact extractAllMemories_summaries db uid ex now
  | some md =>
    rw [process_message_db_some]
    refine ⟨(extractAllMemories_messages _ uid ex now).trans rfl,
      ((congrArg (fun t => t.2.1)
        (extractAllMemories_extFrame _ uid ex now)).trans rfl),
      (extractAllMemories_summaries _ uid ex now).trans rfl⟩

theorem msgSave_inv {db : DB} (h : DBInv db) (uid : Nat)
    (role content : String) (tk ms : Option Nat) (now : Nat) :
    DBInv (msgSave db uid role content tk ms now).1 := by
  constructor
  · show (db.messages ++ [_]).Pairwise _
    refine List.pairwise_append.mpr ⟨h.msorted, List.pairwise_singleton _ _,
      ?_⟩
    intro a ha b hb
    rw [List.mem_singleton.mp hb]
    exact h.mbound a ha
  · intro m hm
    show m.id < db.next_message_id + 1
    rcases List.mem_append.mp hm with hold | hnew
    · exact Nat.lt_succ_of_lt (h.mbound m hold)
    · rw [List.mem_singleton.mp hnew]
      exact Nat.lt_succ_self _
  · intro uid'
    exact h.chained uid'
  · intro uid' s hs
    exact h.ranged uid' s hs

/-- Under the trigger condition checked by the handler, one
`create_summary` run preserves the store invariant: the freshly created
summary starts strictly above every prior summary's upper bound for
that user. -/
theorem create_summary_inv {db : DB} (uid : Nat) (stext : Option String)
    (h : DBInv db) (htrig : should_summarize db uid = true) :
    DBInv (create_summary db uid stext).1 := by
  by_cases hlen : (msgGetRecent db uid SUMMARY_THRESHOLD).length < 10
  · have he : (create_summary db uid stext).1 = db := by
      simp only [create_summary, if_pos hlen]
    rwa [he]
  cases stext with
  | none =>
    have he : (create_summary db uid none).1 = db := by
      simp only [create_summary, if_neg hlen]
    rwa [he]
  | some t =>
    by_cases ht : t = ""
    · subst ht
      have he : (create_summary db uid (some "")).1 = db := by
        simp [create_summary, if_neg hlen]
      rwa [he]
    cases hm : msgGetRecent db uid SUMMARY_THRESHOLD with
    | nil =>
      rw [hm] at hlen
      exact absurd (by decide) hlen
    | cons m0 rest =>
      have hp : (m0 :: rest).Pairwise (fun a b => a.id < b.id) :=
        hm ▸ msgGetRecent_pairwise uid SUMMARY_THRESHOLD h.msorted
      have hbound : ∀ p ∈ userSummaries db uid,
          p.to_message_id < m0.id := by
        rcases hsg : sumGetRecent db uid 1 with _ | ⟨last, L'⟩
        · have hus : userSummaries db uid = [] := by
            by_contra hne
            unfold sumGetRecent at hsg
            rw [takeLast_one hne] at hsg
            simp at hsg
          intro p hp'
          rw [hus] at hp'
          cases hp'
        · have hne : userSummaries db uid ≠ [] := by
            intro he
            unfold sumGetRecent at hsg
            rw [he] at hsg
            cases hsg
          have hlast : last = (userSummaries db uid).getLast hne := by
            unfold sumGetRecent at hsg
            rw [takeLast_one hne] at hsg
            simp at hsg
            exact hsg.1.symm
          unfold should_summarize at htrig
          rw [hsg] at htrig
          have hcount : SUMMARY_THRESHOLD ≤
              ((msgGetRecent db uid 100).filter
                (fun m => decide (last.to_message_id < m.id))).length :=
            of_decide_eq_true htrig
          have hmono : (msgGetRecent db uid 100).Pairwise
              (fun a b => decide (last.to_message_id < a.id) = true →
                decide (last.to_message_id < b.id) = true) :=
            (msgGetRecent_pairwise uid 100 h.msorted).imp
              (fun {a b} hab hpa => by
                rw [decide_eq_true_eq] at hpa ⊢
                exact hpa.trans hab)
          have hcnt : SUMMARY_THRESHOLD ≤ (msgGetRecent db uid 100).countP
              (fun m => decide (last.to_message_id < m.id)) := by
            rw [List.countP_eq_length_filter]
            exact hcount
          have hall := all_takeLast_of_le_countP
            (fun m : Message => decide (last.to_message_id < m.id))
            (msgGetRecent db uid 100) hmono SUMMARY_THRESHOLD hcnt
          have heq : takeLast (msgGetRecent db uid 100) SUMMARY_THRESHOLD =
              msgGetRecent db uid SUMMARY_THRESHOLD :=
            takeLast_takeLast (msgForUser db uid) (by decide)
          have h2 : last.to_message_id < m0.id := by
            have hm0 : m0 ∈ msgGetRecent db uid SUMMARY_THRESHOLD := by
              rw [hm]
              exact List.mem_cons_self m0 rest
            have := hall m0 (by rw [heq]; exact hm0)
            rwa [decide_eq_true_eq] at this
          intro p hp'
          have h1 : p.to_message_id ≤ last.to_message_id := by
            rw [hlast]
            exact chained_le_getLast (h.chained uid) (h.ranged uid) hne p hp'
          omega
      rw [hm] at hlen
      have hred : (create_summary db uid (some t)).1 =
          msgMarkSummarized
            (sumCreate db uid t m0.id
              ((m0 :: rest).getLast (List.cons_ne_nil m0 rest)).id
              (m0 :: rest).length).1
            ((m0 :: rest).map (fun m => m.id)) := by
        simp only [create_summary, hm, if_neg hlen, if_neg ht]
      rw [hred]
      have hφid : ∀ x : Message,
          (if x.id ∈ (m0 :: rest).map (fun mm => mm.id) then
            { x with is_summarized := true } else x).id = x.id := by
        intro x
        split <;> rfl
      have hfil_eq : ∀ (z : ConversationSummary) (u : Nat), z.user_id = u →
          List.filter (fun x : ConversationSummary => x.user_id == u) [z] =
            [z] := by
        intro z u hz
        simp [hz]
      have hfil_ne : ∀ (z : ConversationSummary) (u u' : Nat),
          z.user_id = u → u ≠ u' →
          List.filter (fun x : ConversationSummary => x.user_id == u') [z] =
            [] := by
        intro z u u' hz hne
        simp only [List.filter, hz]
        rw [show (u == u') = false from beq_eq_false_iff_ne.mpr hne]
      constructor
      · show (db.messages.map _).Pairwise _
        refine List.pairwise_map.mpr (h.msorted.imp ?_)
        intro a b hab
        simp only [hφid]
        exact hab
      · intro m' hm'
        rcases List.mem_map.mp hm' with ⟨x, hx, rfl⟩
        show _ < db.next_message_id
        simp only [hφid]
        exact h.mbound x hx
      · intro uid'
        show List.Pairwise _ ((db.summaries ++ [_]).filter
          (fun x => x.user_id == uid'))
        rw [List.filter_append]
        by_cases huid : uid = uid'
        · subst huid
          rw [hfil_eq _ uid rfl]
          refine List.pairwise_append.mpr
            ⟨h.chained uid, List.pairwise_singleton _ _, ?_⟩
          intro p hp' q hq
          rw [List.mem_singleton.mp hq]
          exact hbound p hp'
        · rw [hfil_ne _ uid uid' rfl huid]
          rw [List.append_nil]
          exact h.chained uid'
      · intro uid' s' hs'
        have hmem : s' ∈ (db.summaries ++ [_]).filter
            (fun x : ConversationSummary => x.user_id == uid') := hs'
        rw [List.filter_append] at hmem
        rcases List.mem_append.mp hmem with hold | hnew
        · exact h.ranged uid' s' hold
        · have hs2 := (List.filter_sublist _).mem hnew
          rw [List.mem_singleton.mp hs2]
          exact pairwise_le_getLast (fun m : Message => m.id) hp
            (List.cons_ne_nil m0 rest) m0 (List.mem_cons_self m0 rest)

theorem DBInv_ite_fst {c : Prop} [Decidable c] {a b : DB × User}
    (ha : DBInv a.1) (hb : DBInv b.1) : DBInv (if c then a else b).1 := by
  split
  · exact ha
  · exact hb

theorem userGetOrCreate_inv {db : DB} (h : DBInv db) (tg : Nat) :
    DBInv (userGetOrCreate db tg).1 :=
  DBInv_congr h (userGetOrCreate_msgsum db tg).1
    (userGetOrCreate_msgsum db tg).2.1 (userGetOrCreate_msgsum db tg).2.2

theorem userUpdateName_inv {db : DB} (h : DBInv db) (uid : Nat)
    (name : String) : DBInv (userUpdateName db uid name) :=
  DBInv_congr h rfl rfl rfl

theorem userCompleteOnboarding_inv {db : DB} (h : DBInv db) (uid : Nat) :
    DBInv (userCompleteOnboarding db uid) :=
  DBInv_congr h rfl rfl rfl

theorem userUpdateLastActive_inv {db : DB} (h : DBInv db) (uid now : Nat) :
    DBInv (userUpdateLastActive db uid now) :=
  DBInv_congr h rfl rfl rfl

theorem usageIncrement_inv {db : DB} (h : DBInv db)
    (uid m t c today : Nat) : DBInv (usageIncrement db uid m t c today) :=
  DBInv_congr h (usageIncrement_msgsum db uid m t c today).1
    (usageIncrement_msgsum db uid m t c today).2.1
    (usageIncrement_msgsum db uid m t c today).2.2

theorem contextMarkAccessed_inv {db : DB} (h : DBInv db) (uid : Nat)
    (msg : String) (now : Nat) :
    DBInv (contextMarkAccessed db uid msg now) :=
  DBInv_congr h (contextMarkAccessed_msgsum db uid msg now).1
    (contextMarkAccessed_msgsum db uid msg now).2.1
    (contextMarkAccessed_msgsum db uid msg now).2.2

theorem process_message_inv {db : DB} (h : DBInv db) (uid : Nat)
    (t : String) (mood : Option MoodData) (ex : Option Extraction)
    (now : Nat) :
    DBInv (process_message db uid t "user" mood ex now).1 :=
  DBInv_congr h (process_message_msgsum db uid t mood ex now).1
    (process_message_msgsum db uid t mood ex now).2.1
    (process_message_msgsum db uid t mood ex now).2.2

set_option maxHeartbeats 2000000 in
/-- One handled turn preserves the store invariant. -/
theorem handle_message_inv (st : Settings) (inp : TurnInput) {db : DB}
    (h : DBInv db) : DBInv (handle_message st db inp).db := by
  have h0 : DBInv (userGetOrCreate db inp.telegram_id).1 :=
    userGetOrCreate_inv h inp.telegram_id
  have h1 : DBInv (msgSave (userGetOrCreate db inp.telegram_id).1
      (userGetOrCreate db inp.telegram_id).2.1.id "user"
      (strStrip inp.text) none none inp.now).1 :=
    msgSave_inv h0 _ _ _ _ _ _
  simp only [handle_message]
  split
  · exact h0
  · split
    · split
      · exact msgSave_inv (process_message_inv
          (userCompleteOnboarding_inv (userUpdateName_inv h1 _ _) _)
          _ _ _ _ _) _ _ _ _ _ _
      · cases hg : inp.genResponse with
        | some g =>
          split
          next htrig =>
            exact create_summary_inv _ _
              (userUpdateLastActive_inv (usageIncrement_inv
                (msgSave_inv (contextMarkAccessed_inv
                  (process_message_inv
                    (userCompleteOnboarding_inv
                      (userUpdateName_inv h1 _ _) _) _ _ _ _ _)
                  _ _ _) _ _ _ _ _ _) _ _ _ _ _) _ _) htrig
          next =>
            exact userUpdateLastActive_inv (usageIncrement_inv
              (msgSave_inv (contextMarkAccessed_inv
                (process_message_inv
                  (userCompleteOnboarding_inv
                    (userUpdateName_inv h1 _ _) _) _ _ _ _ _)
                _ _ _) _ _ _ _ _ _) _ _ _ _ _) _ _
        | none =>
          split
          next htrig =>
            exact create_summary_inv _ _
              (msgSave_inv (contextMarkAccessed_inv
                (process_message_inv
                  (userCompleteOnboarding_inv
                    (userUpdateName_inv h1 _ _) _) _ _ _ _ _)
                _ _ _) _ _ _ _ _ _) htrig
          next =>
            exact msgSave_inv (contextMarkAccessed_inv
              (process_message_inv
                (userCompleteOnboarding_inv
                  (userUpdateName_inv h1 _ _) _) _ _ _ _ _)
              _ _ _) _ _ _ _ _ _
    · split
      · exact msgSave_inv (process_message_inv h1 _ _ _ _ _) _ _ _ _ _ _
      · cases hg : inp.genResponse with
        | some g =>
          split
          next htrig =>
            exact create_summary_inv _ _
              (userUpdateLastActive_inv (usageIncrement_inv
                (msgSave_inv (contextMarkAccessed_inv
                  (process_message_inv h1 _ _ _ _ _) _ _ _)
                  _ _ _ _ _ _) _ _ _ _ _) _ _) htrig
          next =>
            exact userUpdateLastActive_inv (usageIncrement_inv
              (msgSave_inv (contextMarkAccessed_inv
                (process_message_inv h1 _ _ _ _ _) _ _ _)
                _ _ _ _ _ _) _ _ _ _ _) _ _
        | none =>
          split
          next htrig =>
            exact create_summary_inv _ _
              (msgSave_inv (contextMarkAccessed_inv
                (process_message_inv h1 _ _ _ _ _) _ _ _)
                _ _ _ _ _ _) htrig
          next =>
            exact msgSave_inv (contextMarkAccessed_inv
              (process_message_inv h1 _ _ _ _ _) _ _ _) _ _ _ _ _ _

/-- Stores reachable from a fresh deployment through the chat pipeline:
handled turns, plus the bare assistant replies the command handlers
save (commands.py). -/
inductive Reachable : DB → Prop where
  | init : Reachable initDB
  | turn (st : Settings) (inp : TurnInput) {db : DB} :
      Reachable db → Reachable (handle_message st db inp).db
  | commandReply (uid : Nat) (text : String) (now : Nat) {db : DB} :
      Reachable db → Reachable (msgSave db uid "assistant" text none none
        now).1

theorem initDB_inv : DBInv initDB := by
  constructor <;> simp [initDB, userSummaries]

theorem reachable_inv : ∀ {db : DB}, Reachable db → DBInv db := by
  intro db h
  induction h with
  | init => exact initDB_inv
  | turn st inp _ ih => exact handle_message_inv st inp ih
  | commandReply uid text now _ ih => exact msgSave_inv ih _ _ _ _ _ _

/-- C3 amended: in every store reachable through the pipeline, each
user's ConversationSummary rows form a chain in creation order — every
later summary starts strictly above every earlier summary's upper bound
and each covers a well-formed range — so no two summaries cover
overlapping message-id ranges.  (The compacted window is the newest
`threshold` stored messages, not the oldest unfolded ones; see the
counterexample.) -/
theorem claim3_summary_ranges_disjoint (db : DB) (h : Reachable db)
    (uid : Nat) :
    List.Pairwise (fun a b : ConversationSummary =>
      a.to_message_id < b.from_message_id) (userSummaries db uid) ∧
    (∀ s ∈ userSummaries db uid, s.from_message_id ≤ s.to_message_id) :=
  ⟨(reachable_inv h).chained uid, (reachable_inv h).ranged uid⟩

/-- A store with 52 stored messages for one user and no summary yet. -/
def c3db : DB :=
  { initDB with
      messages := (List.range 52).map (fun i =>
        { id := i + 1, user_id := 1
          role := if i % 2 == 0 then "user" else "assistant"
          content := "сообщение", tokens_used := none
          response_time_ms := none, is_summarized := false
          created_at := i })
      next_message_id := 53 }

/-- C3 counterexample: with 52 stored messages and no prior summary the
trigger fires, but the created summary covers the id range (3, 52) —
the newest fifty messages — and the two oldest unfolded messages (ids 1
and 2) stay unfolded, so the run does not compact the oldest fifty
messages not yet folded (ids 1..50) as claimed. -/
theorem claim3_counterexample :
    should_summarize c3db 1 = true ∧
    ((create_summary c3db 1 (some "итог")).1.summaries.map
      (fun s => (s.from_message_id, s.to_message_id))) = [(3, 52)] ∧
    (((create_summary c3db 1 (some "итог")).1.messages.filter
      (fun m => !m.is_summarized)).map (fun m => m.id)) = [1, 2] := by
  decide

/-- Settings for the witness run: no admins, a roomy free limit. -/
def c3settings : Settings :=
  { free_messages_per_day := 100, basic_messages_per_day := 100
    premium_messages_per_day := 1000, admin_telegram_ids := [] }

/-- The repeated turn of the witness run: no external results except a
summarization text. -/
def c3turnInp : TurnInput :=
  { telegram_id := 7, text := "привет", now := 10, todayStart := 5
    mood := none, extraction := none, genResponse := none
    fallbackText := "я здесь", summaryText := some "итог" }

/-- `n` handled turns from a fresh deployment. -/
def iterTurn : Nat → DB
  | 0 => initDB
  | n + 1 => (handle_message c3settings (iterTurn n) c3turnInp).db

theorem iterTurn_reachable : ∀ n, Reachable (iterTurn n)
  | 0 => Reachable.init
  | n + 1 => Reachable.turn c3settings c3turnInp (iterTurn_reachable n)

set_option maxRecDepth 40000 in
theorem claim3_witness :
    (List.Pairwise (fun a b : ConversationSummary =>
      a.to_message_id < b.from_message_id) (userSummaries (iterTurn 25) 1) ∧
    (∀ s ∈ userSummaries (iterTurn 25) 1,
      s.from_message_id ≤ s.to_message_id)) ∧
    (userSummaries (iterTurn 25) 1).length = 1 :=
  ⟨claim3_summary_ranges_disjoint (iterTurn 25) (iterTurn_reachable 25) 1,
    by decide⟩

end Ryadom
